import Mathlib

/-!
Verification of the grandicast streaming core.

The definitions below are a shallow embedding of the repository sources:

* `src/ndi-manager.cjs` — the `NdiManager` class: the frame-pacing loop
  (`_loop`), the bounded audio queue with drop-oldest back-pressure
  (`pushAudio`), the serialized drain (`_drainAudioQueue`), and `stop`.
* `src/preload-browser.cjs` — the `BridgedBroadcastChannel` relay, the
  `AudioCaptureProcessor` worklet, and the `ScriptProcessorNode` fallback.
* `src/main.cjs` — the main-process IPC routing of broadcast messages.

Modelling conventions: JavaScript numbers that take part in arithmetic
(timestamps, delays, fps) are modelled as `ℚ`; counts and sizes as `Nat`.
The `Buffer` payloads exchanged with the native sender are opaque to
`ndi-manager.cjs` (it only moves them) and are modelled as `Nat` handles;
audio samples are opaque to the capture bridge and are modelled as `Int`.
Asynchronous (`await`-separated) code is broken into the atomic segments
that the single-threaded event loop actually executes, connected by a
step relation over explicit continuation states.  Fields named `ghost*`
are verification instrumentation (logs of calls issued, pushes, active
drain tasks); they are not part of the source and no source branch reads
them.
-/

namespace Grandicast

/-! ### ndi-manager.cjs : audio queue -/

/-- An element of `_audioQueue`: the object `{ data: planarBuf, noSamples }`
built at ndi-manager.cjs line 151.  The `Buffer` contents are opaque to
ndi-manager.cjs, so `data` is a `Nat` handle. -/
structure AChunk where
  data : Nat
  noSamples : Nat
deriving DecidableEq, Repr

/-- The back-pressure enqueue of `pushAudio` (ndi-manager.cjs lines 145-151):
`if (this._audioQueue.length >= 8) this._audioQueue.shift();` followed by
`this._audioQueue.push(...)`. -/
def pushQueue (q : List AChunk) (c : AChunk) : List AChunk :=
  (if 8 ≤ q.length then q.tail else q) ++ [c]

/-! ### ndi-manager.cjs : the NdiManager event machine

`_loop` and `_drainAudioQueue` are `async` functions; the machine below
cuts them at their `await` points.  `VPc` is the continuation state of the
video loop (suspended in `capturePage` or in `sender.video`), `DPc` the
continuation state of the drain (suspended in `sender.audio`). -/

/-- Continuation state of `_loop`: not suspended, suspended in
`await capturePage()` (line 92), or suspended in `await sender.video`
(line 104).  `t0` is the `performance.now()` reading from line 81. -/
inductive VPc where
  | idle
  | capturing (t0 : ℚ)
  | sending (t0 : ℚ)
deriving DecidableEq, Repr

/-- Continuation state of `_drainAudioQueue`: not suspended, or suspended in
`await sender.audio` (line 169) with the chunk that was shifted. -/
inductive DPc where
  | idle
  | awaiting (c : AChunk)
deriving DecidableEq, Repr

/-- The mutable fields of an `NdiManager` instance (constructor, lines 22-39),
plus the two continuation states and ghost instrumentation.
`timeoutDelay` models `_timeout`: `some d` when a re-arm timer with delay `d`
is pending, `none` when `_timeout` is null/cleared.  `starting` is true while
`start` is suspended in `await grandi.send` (line 58).  `winDestroyed` models
`browserWindow.isDestroyed()`. -/
structure NdiState where
  running : Bool
  sender : Bool
  starting : Bool
  winDestroyed : Bool
  fps : ℚ
  width : Nat
  height : Nat
  audioEnabled : Bool
  audioDraining : Bool
  audioQueue : List AChunk
  timeoutDelay : Option ℚ
  vpc : VPc
  dpc : DPc
  ghostPushed : List AChunk
  ghostIssued : List AChunk
  ghostInFlight : List AChunk
  ghostActiveDrains : Nat
deriving DecidableEq, Repr

/-- The constructor state (ndi-manager.cjs lines 22-39). -/
def ndiInit : NdiState :=
  { running := false, sender := false, starting := false, winDestroyed := false
    fps := 30, width := 1280, height := 720
    audioEnabled := false, audioDraining := false, audioQueue := []
    timeoutDelay := none, vpc := VPc.idle, dpc := DPc.idle
    ghostPushed := [], ghostIssued := [], ghostInFlight := []
    ghostActiveDrains := 0 }

/-- Calls issued to external collaborators: `webContents.capturePage()`,
`sender.video(...)`, `sender.audio(...)`, `sender.destroy()`. -/
inductive NCall where
  | captureCall
  | videoSend (w h : Nat) (fps : ℚ)
  | audioSend (c : AChunk)
  | destroyCall
deriving DecidableEq, Repr

/-- External events that resume the machine: the public calls `start`,
`pushAudio`, `stop`; completions of the awaited operations; the re-arm
timer firing; the window being destroyed. -/
inductive NEv where
  | startReq (fps : ℚ) (w h : Nat) (audio : Bool)
  | senderReady (ok : Bool) (now : ℚ)
  | timerFire (now : ℚ)
  | captureDone (ok : Bool) (now : ℚ)
  | videoSendDone (now : ℚ)
  | pushAudio (c : AChunk)
  | audioSendDone
  | stopReq
  | winClosed
deriving DecidableEq, Repr

/-- `stop()` (ndi-manager.cjs lines 199-214): set `running` false, clear the
pending timer, empty `_audioQueue`, destroy and null the sender.  The
`try/catch` around `sender.destroy()` absorbs any destroy failure, so the
state transform does not depend on whether destroy throws. -/
def stopST (s : NdiState) : NdiState × List NCall :=
  let s1 : NdiState :=
    { s with running := false, timeoutDelay := none, audioQueue := [] }
  if s.sender then ({ s1 with sender := false }, [NCall.destroyCall]) else (s1, [])

/-- One pass of the `while` head in `_drainAudioQueue` (lines 158-196): the
loop-condition check, then either `shift()` of the head chunk and the start of
`await this.sender.audio(...)` (suspension), or the loop exit that clears
`_audioDraining` (line 195). -/
def drainLoopHead (s : NdiState) : NdiState × List NCall :=
  match s.audioQueue, s.running, s.sender with
  | c :: rest, true, true =>
      ({ s with audioQueue := rest, dpc := DPc.awaiting c,
                ghostIssued := s.ghostIssued ++ [c],
                ghostInFlight := s.ghostInFlight ++ [c] }, [NCall.audioSend c])
  | _, _, _ =>
      ({ s with audioDraining := false, dpc := DPc.idle,
                ghostActiveDrains := s.ghostActiveDrains - 1 }, [])

/-- `pushAudio(planarBuf, noSamples)` (lines 142-153): guard on
`running && audioEnabled && sender`, drop-oldest enqueue, and — when no drain
is active — the synchronous start of `_drainAudioQueue` (which sets
`_audioDraining = true` at line 157 and runs to its first `await`). -/
def pushStep (s : NdiState) (c : AChunk) : NdiState × List NCall :=
  if s.running && s.audioEnabled && s.sender then
    if s.audioDraining then
      ({ s with audioQueue := pushQueue s.audioQueue c,
                ghostPushed := s.ghostPushed ++ [c] }, [])
    else
      drainLoopHead { s with audioQueue := pushQueue s.audioQueue c,
                             ghostPushed := s.ghostPushed ++ [c],
                             audioDraining := true,
                             ghostActiveDrains := s.ghostActiveDrains + 1 }
  else (s, [])

/-- The tail of a `_loop` iteration (lines 128-133): `if (!this.running)
return;` then `elapsed = now - t0`, `interval = 1000 / fps`,
`delay = Math.max(1, interval - elapsed)`, and the `setTimeout` re-arm. -/
def loopTail (s : NdiState) (t0 now : ℚ) : NdiState × List NCall :=
  if s.running then
    ({ s with timeoutDelay := some (max 1 (1000 / s.fps - (now - t0))) }, [])
  else (s, [])

/-- The head of `_loop` (lines 74-92): the `running`/`sender` guard, the
`isDestroyed` check (which awaits `stop`), the `t0` reading, and the start of
`await capturePage()` (suspension). -/
def loopEntry (s : NdiState) (now : ℚ) : NdiState × List NCall :=
  if s.running && s.sender then
    if s.winDestroyed then stopST s
    else ({ s with vpc := VPc.capturing now }, [NCall.captureCall])
  else (s, [])

/-- The re-arm timer of line 133 fires: the timeout handle is spent and
`_loop` runs to its first suspension. -/
def timerStep (s : NdiState) (now : ℚ) : NdiState × List NCall :=
  match s.timeoutDelay with
  | none => (s, [])
  | some _ => loopEntry { s with timeoutDelay := none } now

/-- `await capturePage()` settles (lines 92-116).  On success with a live
sender, the frame is resized and `await this.sender.video(...)` starts.  If
the capture threw, or `this.sender` is now null (stop ran while suspended, so
the member call throws), the `catch` absorbs the error and control falls
through to the loop tail. -/
def captureDoneStep (s : NdiState) (ok : Bool) (now : ℚ) : NdiState × List NCall :=
  match s.vpc with
  | VPc.capturing t0 =>
      if ok && s.sender then
        ({ s with vpc := VPc.sending t0 }, [NCall.videoSend s.width s.height s.fps])
      else
        loopTail { s with vpc := VPc.idle } t0 now
  | _ => (s, [])

/-- `await this.sender.video(...)` settles (line 104); success and the caught
send failure continue identically into the loop tail (lines 117-133). -/
def videoDoneStep (s : NdiState) (now : ℚ) : NdiState × List NCall :=
  match s.vpc with
  | VPc.sending t0 => loopTail { s with vpc := VPc.idle } t0 now
  | _ => (s, [])

/-- `await this.sender.audio(...)` settles (lines 169-193); success and the
caught send failure continue identically back to the `while` head. -/
def audioDoneStep (s : NdiState) : NdiState × List NCall :=
  match s.dpc with
  | DPc.awaiting c =>
      drainLoopHead { s with dpc := DPc.idle,
                             ghostInFlight := s.ghostInFlight.erase c }
  | DPc.idle => (s, [])

/-- The synchronous head of `start` (lines 49-62): the implicit `stop` when
already running, the `||` defaulting of fps/width/height, the audio flag, and
the start of `await grandi.send(...)` (suspension, `starting := true`). -/
def startReqStep (s : NdiState) (fps : ℚ) (w h : Nat) (audio : Bool) :
    NdiState × List NCall :=
  let p := if s.running then stopST s else (s, [])
  ({ p.1 with fps := if fps = 0 then 30 else fps,
              width := if w = 0 then 1280 else w,
              height := if h = 0 then 720 else h,
              audioEnabled := audio,
              starting := true }, p.2)

/-- `await grandi.send(...)` settles (lines 58-71).  On success the sender is
installed, `_audioQueue` is reset to `[]` (line 64), `running` becomes true
and `_loop()` runs to its first suspension.  On failure `start` throws and
the manager stays idle. -/
def senderReadyStep (s : NdiState) (ok : Bool) (now : ℚ) : NdiState × List NCall :=
  if s.starting then
    if ok then
      loopEntry { s with starting := false, sender := true,
                         audioQueue := [], running := true } now
    else ({ s with starting := false }, [])
  else (s, [])

/-- One atomic segment of the event loop. -/
def ndiStep (s : NdiState) : NEv → NdiState × List NCall
  | NEv.startReq fps w h audio => startReqStep s fps w h audio
  | NEv.senderReady ok now => senderReadyStep s ok now
  | NEv.timerFire now => timerStep s now
  | NEv.captureDone ok now => captureDoneStep s ok now
  | NEv.videoSendDone now => videoDoneStep s now
  | NEv.pushAudio c => pushStep s c
  | NEv.audioSendDone => audioDoneStep s
  | NEv.stopReq => stopST s
  | NEv.winClosed => ({ s with winDestroyed := true }, [])

/-- Run a sequence of events, collecting every call issued to collaborators. -/
def ndiRunT (s : NdiState) : List NEv → NdiState × List NCall
  | [] => (s, [])
  | e :: es =>
      let p := ndiStep s e
      let q := ndiRunT p.1 es
      (q.1, p.2 ++ q.2)

/-- The state reached from the constructor state by a sequence of events. -/
def nrun (evs : List NEv) : NdiState := (ndiRunT ndiInit evs).1

/-! ### C2 : bounded drop-oldest queue -/

theorem pushQueue_length_le (q : List AChunk) (c : AChunk) (h : q.length ≤ 8) :
    (pushQueue q c).length ≤ 8 := by
  unfold pushQueue
  split <;> simp [List.length_tail] <;> omega

theorem foldl_pushQueue_le (cs : List AChunk) :
    ∀ q : List AChunk, q.length ≤ 8 → (cs.foldl pushQueue q).length ≤ 8 := by
  induction cs with
  | nil => intro q h; simpa using h
  | cons c cs ih =>
      intro q h
      simpa using ih (pushQueue q c) (pushQueue_length_le q c h)

/-- C2: the audio queue never exceeds 8 elements under any sequence of pushes
from empty; a push onto a full queue drops the head first and appends at the
tail; and pushing chunks 1..9 into the empty queue leaves exactly chunks 2..9. -/
theorem C2_audio_queue_drop_oldest :
    (∀ cs : List AChunk, (cs.foldl pushQueue []).length ≤ 8)
    ∧ (∀ (q : List AChunk) (c : AChunk), q.length = 8 →
        pushQueue q c = q.tail ++ [c])
    ∧ (List.foldl pushQueue []
        [⟨1, 4096⟩, ⟨2, 4096⟩, ⟨3, 4096⟩, ⟨4, 4096⟩, ⟨5, 4096⟩,
         ⟨6, 4096⟩, ⟨7, 4096⟩, ⟨8, 4096⟩, ⟨9, 4096⟩] =
        [⟨2, 4096⟩, ⟨3, 4096⟩, ⟨4, 4096⟩, ⟨5, 4096⟩,
         ⟨6, 4096⟩, ⟨7, 4096⟩, ⟨8, 4096⟩, ⟨9, 4096⟩]) := by
  refine ⟨fun cs => foldl_pushQueue_le cs [] (by simp), ?_, by decide⟩
  intro q c h
  unfold pushQueue
  rw [if_pos (by omega)]

/-! ### Reachable-state invariants of the NdiManager machine -/

/-- Drain bookkeeping invariant: the drain-active flag, the ghost count of
live drain tasks, the drain continuation and the ghost in-flight list agree. -/
def InvA (s : NdiState) : Prop :=
  s.ghostActiveDrains = (if s.audioDraining then 1 else 0)
  ∧ (∀ c, s.dpc = DPc.awaiting c → s.audioDraining = true ∧ s.ghostInFlight = [c])
  ∧ (s.dpc = DPc.idle → s.audioDraining = false ∧ s.ghostInFlight = [])

/-- FIFO invariant: the chunks issued to the sender so far, followed by the
chunks still queued, form an order-preserving subsequence of every chunk ever
pushed (eviction and stop only ever delete elements). -/
def InvB (s : NdiState) : Prop :=
  (s.ghostIssued ++ s.audioQueue).Sublist s.ghostPushed

def NdiInv (s : NdiState) : Prop := InvA s ∧ InvB s

theorem ndiInv_init : NdiInv ndiInit := by
  refine ⟨⟨rfl, ?_, ?_⟩, ?_⟩ <;> simp [ndiInit, InvB]

theorem drainLoopHead_invA (s : NdiState)
    (hd : s.audioDraining = true) (hg : s.ghostActiveDrains = 1)
    (hf : s.ghostInFlight = []) :
    InvA (drainLoopHead s).1 := by
  rcases hq : s.audioQueue with _ | ⟨c, rest⟩ <;>
    rcases hr : s.running with _ | _ <;>
      rcases hsd : s.sender with _ | _ <;>
        simp_all [drainLoopHead, InvA]

theorem drainLoopHead_invB (s : NdiState) (hB : InvB s) :
    InvB (drainLoopHead s).1 := by
  rcases hq : s.audioQueue with _ | ⟨c, rest⟩ <;>
    rcases hr : s.running with _ | _ <;>
      rcases hsd : s.sender with _ | _ <;>
        simp_all [drainLoopHead, InvB]

theorem stopST_inv (s : NdiState) (h : NdiInv s) : NdiInv (stopST s).1 := by
  obtain ⟨⟨h1, h2, h3⟩, hB⟩ := h
  constructor
  · refine ⟨?_, ?_, ?_⟩ <;>
      simp [stopST] <;> split <;> simp_all [InvA]
  · have : (s.ghostIssued ++ ([] : List AChunk)).Sublist s.ghostPushed := by
      refine List.Sublist.trans ?_ hB
      exact (List.nil_sublist _).append_left s.ghostIssued
    simp only [stopST, InvB]
    split <;> simpa using this

theorem loopTail_inv (s : NdiState) (t0 now : ℚ) (h : NdiInv s) :
    NdiInv (loopTail s t0 now).1 := by
  obtain ⟨⟨h1, h2, h3⟩, hB⟩ := h
  unfold loopTail
  split <;> exact ⟨⟨h1, h2, h3⟩, hB⟩

theorem loopEntry_inv (s : NdiState) (now : ℚ) (h : NdiInv s) :
    NdiInv (loopEntry s now).1 := by
  obtain ⟨⟨h1, h2, h3⟩, hB⟩ := h
  unfold loopEntry
  split
  · split
    · exact stopST_inv s ⟨⟨h1, h2, h3⟩, hB⟩
    · exact ⟨⟨h1, h2, h3⟩, hB⟩
  · exact ⟨⟨h1, h2, h3⟩, hB⟩

theorem startReqStep_inv (s : NdiState) (fps : ℚ) (w h : Nat) (audio : Bool)
    (hI : NdiInv s) : NdiInv (startReqStep s fps w h audio).1 := by
  have hp : NdiInv (if s.running then stopST s else (s, [])).1 := by
    split
    · exact stopST_inv s hI
    · exact hI
  obtain ⟨⟨g1, g2, g3⟩, gB⟩ := hp
  exact ⟨⟨g1, g2, g3⟩, gB⟩

theorem senderReadyStep_inv (s : NdiState) (ok : Bool) (now : ℚ) (h : NdiInv s) :
    NdiInv (senderReadyStep s ok now).1 := by
  obtain ⟨hA, hB⟩ := h
  unfold senderReadyStep
  split
  · split
    · refine loopEntry_inv _ now ⟨hA, ?_⟩
      show (s.ghostIssued ++ ([] : List AChunk)).Sublist s.ghostPushed
      simpa using (List.sublist_append_left s.ghostIssued s.audioQueue).trans hB
    · exact ⟨hA, hB⟩
  · exact ⟨hA, hB⟩

theorem timerStep_inv (s : NdiState) (now : ℚ) (h : NdiInv s) :
    NdiInv (timerStep s now).1 := by
  unfold timerStep
  rcases ht : s.timeoutDelay with _ | d <;> simp only [ht]
  · exact h
  · exact loopEntry_inv _ now h

theorem captureDoneStep_inv (s : NdiState) (ok : Bool) (now : ℚ) (h : NdiInv s) :
    NdiInv (captureDoneStep s ok now).1 := by
  unfold captureDoneStep
  rcases hv : s.vpc with _ | t0 | t0 <;> simp only [hv]
  · exact h
  · split
    · exact h
    · exact loopTail_inv _ t0 now h
  · exact h

theorem videoDoneStep_inv (s : NdiState) (now : ℚ) (h : NdiInv s) :
    NdiInv (videoDoneStep s now).1 := by
  unfold videoDoneStep
  rcases hv : s.vpc with _ | t0 | t0 <;> simp only [hv]
  · exact h
  · exact h
  · exact loopTail_inv _ t0 now h

theorem pushStep_inv (s : NdiState) (c : AChunk) (h : NdiInv s) :
    NdiInv (pushStep s c).1 := by
  obtain ⟨⟨h1, h2, h3⟩, hB⟩ := h
  have htail : (if 8 ≤ s.audioQueue.length then s.audioQueue.tail
      else s.audioQueue).Sublist s.audioQueue := by
    split
    · exact List.tail_sublist _
    · exact List.Sublist.refl _
  have hq : (s.ghostIssued ++ pushQueue s.audioQueue c).Sublist
      (s.ghostPushed ++ [c]) := by
    have h2a : (s.ghostIssued ++ pushQueue s.audioQueue c).Sublist
        ((s.ghostIssued ++ s.audioQueue) ++ [c]) := by
      rw [pushQueue, ← List.append_assoc]
      exact (htail.append_left s.ghostIssued).append (List.Sublist.refl [c])
    exact h2a.trans (hB.append (List.Sublist.refl [c]))
  unfold pushStep
  split
  · split
    · exact ⟨⟨h1, h2, h3⟩, hq⟩
    · rename_i hguard hnd
      have hd : s.audioDraining = false := by
        simpa using hnd
      have hdpc : s.dpc = DPc.idle := by
        rcases hpc : s.dpc with _ | c2
        · rfl
        · exact absurd (h2 c2 hpc).1 (by simp [hd])
      constructor
      · apply drainLoopHead_invA
        · rfl
        · show s.ghostActiveDrains + 1 = 1
          simp [h1, hd]
        · exact (h3 hdpc).2
      · exact drainLoopHead_invB _ hq
  · exact ⟨⟨h1, h2, h3⟩, hB⟩

theorem audioDoneStep_inv (s : NdiState) (h : NdiInv s) :
    NdiInv (audioDoneStep s).1 := by
  obtain ⟨⟨h1, h2, h3⟩, hB⟩ := h
  unfold audioDoneStep
  rcases hpc : s.dpc with _ | c <;> simp only [hpc]
  · exact ⟨⟨h1, h2, h3⟩, hB⟩
  · obtain ⟨hd, hf⟩ := h2 c hpc
    constructor
    · apply drainLoopHead_invA
      · exact hd
      · show s.ghostActiveDrains = 1
        simp [h1, hd]
      · show s.ghostInFlight.erase c = []
        simp [hf]
    · exact drainLoopHead_invB _ hB

theorem ndiStep_inv (s : NdiState) (e : NEv) (h : NdiInv s) :
    NdiInv (ndiStep s e).1 := by
  cases e with
  | startReq fps w hh audio => exact startReqStep_inv s fps w hh audio h
  | senderReady ok now => exact senderReadyStep_inv s ok now h
  | timerFire now => exact timerStep_inv s now h
  | captureDone ok now => exact captureDoneStep_inv s ok now h
  | videoSendDone now => exact videoDoneStep_inv s now h
  | pushAudio c => exact pushStep_inv s c h
  | audioSendDone => exact audioDoneStep_inv s h
  | stopReq => exact stopST_inv s h
  | winClosed => exact h

theorem ndiRunT_inv (evs : List NEv) :
    ∀ s : NdiState, NdiInv s → NdiInv (ndiRunT s evs).1 := by
  induction evs with
  | nil => intro s h; exact h
  | cons e es ih =>
      intro s h
      simpa [ndiRunT] using ih (ndiStep s e).1 (ndiStep_inv s e h)

theorem nrun_inv (evs : List NEv) : NdiInv (nrun evs) :=
  ndiRunT_inv evs ndiInit ndiInv_init

/-! ### Quiescence after stop -/

/-- A manager on which `stop()` has completed (and no `start` is pending). -/
def Stopped (s : NdiState) : Prop :=
  s.running = false ∧ s.sender = false ∧ s.timeoutDelay = none ∧ s.starting = false

/-- Events other than a new `start()` call. -/
def noStart : NEv → Bool
  | NEv.startReq _ _ _ _ => false
  | _ => true

theorem stopped_step (s : NdiState) (e : NEv) (hs : Stopped s)
    (he : noStart e = true) : Stopped (ndiStep s e).1 ∧ (ndiStep s e).2 = [] := by
  obtain ⟨hr, hsd, ht, hst⟩ := hs
  cases e with
  | startReq fps w h audio => simp [noStart] at he
  | senderReady ok now =>
      unfold ndiStep senderReadyStep
      simp [hst, Stopped, hr, hsd, ht]
  | timerFire now =>
      unfold ndiStep timerStep
      simp [ht, Stopped, hr, hsd, hst]
  | captureDone ok now =>
      unfold ndiStep captureDoneStep loopTail
      rcases hv : s.vpc with _ | t0 | t0 <;>
        simp [hv, hsd, hr, Stopped, ht, hst]
  | videoSendDone now =>
      unfold ndiStep videoDoneStep loopTail
      rcases hv : s.vpc with _ | t0 | t0 <;>
        simp [hv, hr, Stopped, hsd, ht, hst]
  | pushAudio c =>
      unfold ndiStep pushStep
      simp [hr, Stopped, hsd, ht, hst]
  | audioSendDone =>
      unfold ndiStep audioDoneStep drainLoopHead
      rcases hpc : s.dpc with _ | c <;>
        rcases hq : s.audioQueue with _ | ⟨c2, rest⟩ <;>
          simp [hpc, hq, hr, Stopped, hsd, ht, hst]
  | stopReq =>
      unfold ndiStep stopST
      simp [hsd, Stopped, ht, hst]
  | winClosed =>
      unfold ndiStep
      simp [Stopped, hr, hsd, ht, hst]

theorem stopped_runT (evs : List NEv) :
    ∀ s : NdiState, Stopped s → (∀ e ∈ evs, noStart e = true) →
      Stopped (ndiRunT s evs).1 ∧ (ndiRunT s evs).2 = [] := by
  induction evs with
  | nil => intro s hs _; exact ⟨hs, rfl⟩
  | cons e es ih =>
      intro s hs he
      have h1 := stopped_step s e hs (he e (by simp))
      have h2 := ih (ndiStep s e).1 h1.1 (fun x hx => he x (by simp [hx]))
      constructor
      · simpa [ndiRunT] using h2.1
      · simp [ndiRunT, h1.2, h2.2]

theorem stopST_stopped (s : NdiState) (hst : s.starting = false) :
    Stopped (stopST s).1 := by
  unfold stopST
  cases hsd : s.sender <;> simp [hsd, Stopped, hst]

theorem stopST_idem (s : NdiState) :
    (stopST (stopST s).1).1 = (stopST s).1 ∧ (stopST (stopST s).1).2 = [] := by
  unfold stopST
  split <;> simp

/-! ### Step-level drain properties (for C3) -/

theorem drain_props (s : NdiState) (hI : NdiInv s) (c : AChunk) :
    s.ghostActiveDrains ≤ 1
    ∧ s.ghostInFlight.length ≤ 1
    ∧ (s.ghostIssued ++ s.audioQueue).Sublist s.ghostPushed
    ∧ (s.audioDraining = true →
        (ndiStep s (NEv.pushAudio c)).1.ghostActiveDrains = s.ghostActiveDrains)
    ∧ (s.dpc = DPc.awaiting c → s.audioQueue = [] →
        (ndiStep s NEv.audioSendDone).1.audioDraining = false
        ∧ (ndiStep s NEv.audioSendDone).1.dpc = DPc.idle)
    ∧ (∀ h t, s.dpc = DPc.awaiting c → s.audioQueue = h :: t →
        s.running = true → s.sender = true →
        (ndiStep s NEv.audioSendDone).2 = [NCall.audioSend h])
    ∧ (s.audioDraining = false → s.running = true → s.audioEnabled = true →
        s.sender = true →
        (ndiStep s (NEv.pushAudio c)).1.audioDraining = true
        ∧ (ndiStep s (NEv.pushAudio c)).2
            = [NCall.audioSend ((pushQueue s.audioQueue c).headD c)]) := by
  obtain ⟨⟨h1, h2, h3⟩, hB⟩ := hI
  refine ⟨?_, ?_, hB, ?_, ?_, ?_, ?_⟩
  · cases hd : s.audioDraining <;> rw [hd] at h1 <;> simp at h1 <;> omega
  · rcases hpc : s.dpc with _ | c2
    · simp [(h3 hpc).2]
    · simp [(h2 c2 hpc).2]
  · intro hd
    show (pushStep s c).1.ghostActiveDrains = s.ghostActiveDrains
    unfold pushStep
    split
    · simp [hd]
    · rfl
  · intro hpc hq
    show (audioDoneStep s).1.audioDraining = false
        ∧ (audioDoneStep s).1.dpc = DPc.idle
    unfold audioDoneStep
    simp only [hpc]
    unfold drainLoopHead
    simp [hq]
  · intro h t hpc hq hr hsd
    show (audioDoneStep s).2 = [NCall.audioSend h]
    unfold audioDoneStep
    simp only [hpc]
    unfold drainLoopHead
    simp [hq, hr, hsd]
  · intro hd hr hae hsd
    constructor
    · show (pushStep s c).1.audioDraining = true
      unfold pushStep
      simp only [hr, hae, hsd, hd, Bool.and_self, if_true]
      rcases hq2 : pushQueue s.audioQueue c with _ | ⟨h, t⟩
      · exact absurd hq2 (by simp [pushQueue])
      · unfold drainLoopHead
        simp [hq2, hr, hsd]
    · show (pushStep s c).2
          = [NCall.audioSend ((pushQueue s.audioQueue c).headD c)]
      unfold pushStep
      simp only [hr, hae, hsd, hd, Bool.and_self, if_true]
      rcases hq2 : pushQueue s.audioQueue c with _ | ⟨h, t⟩
      · exact absurd hq2 (by simp [pushQueue])
      · unfold drainLoopHead
        simp [hq2, hr, hsd]

/-! ### C3 : single-flight FIFO drain -/

/-- C3: in every reachable state at most one drain task is live and at most
one audio send is in flight; the sends issued so far followed by the queued
chunks are an order-preserving subsequence of all pushes (FIFO); a push while
a drain is active starts no new drain; when the awaited send settles with an
empty queue the drain exits and clears its flag; when the queue is nonempty
the next send issued is exactly the head chunk; and a push with no drain
active (re)starts the drain, immediately issuing the head of the updated
queue. -/
theorem C3_drain_single_flight_fifo (evs : List NEv) (c : AChunk) :
    (nrun evs).ghostActiveDrains ≤ 1
    ∧ (nrun evs).ghostInFlight.length ≤ 1
    ∧ ((nrun evs).ghostIssued ++ (nrun evs).audioQueue).Sublist
        (nrun evs).ghostPushed
    ∧ ((nrun evs).audioDraining = true →
        (ndiStep (nrun evs) (NEv.pushAudio c)).1.ghostActiveDrains
          = (nrun evs).ghostActiveDrains)
    ∧ ((nrun evs).dpc = DPc.awaiting c → (nrun evs).audioQueue = [] →
        (ndiStep (nrun evs) NEv.audioSendDone).1.audioDraining = false
        ∧ (ndiStep (nrun evs) NEv.audioSendDone).1.dpc = DPc.idle)
    ∧ (∀ h t, (nrun evs).dpc = DPc.awaiting c →
        (nrun evs).audioQueue = h :: t →
        (nrun evs).running = true → (nrun evs).sender = true →
        (ndiStep (nrun evs) NEv.audioSendDone).2 = [NCall.audioSend h])
    ∧ ((nrun evs).audioDraining = false → (nrun evs).running = true →
        (nrun evs).audioEnabled = true → (nrun evs).sender = true →
        (ndiStep (nrun evs) (NEv.pushAudio c)).1.audioDraining = true
        ∧ (ndiStep (nrun evs) (NEv.pushAudio c)).2
            = [NCall.audioSend
                ((pushQueue (nrun evs).audioQueue c).headD c)]) :=
  drain_props (nrun evs) (nrun_inv evs) c

/-- Event lists reaching concrete drain states, for the C3 witness. -/
def evsStarted : List NEv :=
  [NEv.startReq 30 1280 720 true, NEv.senderReady true 0]

def evsOnePush : List NEv := evsStarted ++ [NEv.pushAudio ⟨1, 4096⟩]

def evsTwoPush : List NEv := evsOnePush ++ [NEv.pushAudio ⟨2, 4096⟩]

/-- Witness for C3: every conjunct instantiated on concrete reachable states —
after one push the drain is awaiting chunk 1 with an empty queue; after two
pushes chunk 2 is queued and the settling send issues exactly it; a push from
the started (drain-idle) state starts the drain and issues the pushed chunk. -/
theorem C3_witness :
    ((nrun evsOnePush).ghostActiveDrains ≤ 1)
    ∧ ((nrun evsOnePush).ghostInFlight.length ≤ 1)
    ∧ (((nrun evsOnePush).ghostIssued ++ (nrun evsOnePush).audioQueue).Sublist
        (nrun evsOnePush).ghostPushed)
    ∧ ((ndiStep (nrun evsTwoPush) (NEv.pushAudio ⟨3, 4096⟩)).1.ghostActiveDrains
        = (nrun evsTwoPush).ghostActiveDrains)
    ∧ ((ndiStep (nrun evsOnePush) NEv.audioSendDone).1.audioDraining = false
        ∧ (ndiStep (nrun evsOnePush) NEv.audioSendDone).1.dpc = DPc.idle)
    ∧ ((ndiStep (nrun evsTwoPush) NEv.audioSendDone).2
        = [NCall.audioSend ⟨2, 4096⟩])
    ∧ ((ndiStep (nrun evsStarted) (NEv.pushAudio ⟨9, 1⟩)).1.audioDraining = true
        ∧ (ndiStep (nrun evsStarted) (NEv.pushAudio ⟨9, 1⟩)).2
            = [NCall.audioSend
                ((pushQueue (nrun evsStarted).audioQueue ⟨9, 1⟩).headD ⟨9, 1⟩)]) := by
  refine ⟨(C3_drain_single_flight_fifo evsOnePush ⟨1, 4096⟩).1,
          (C3_drain_single_flight_fifo evsOnePush ⟨1, 4096⟩).2.1,
          (C3_drain_single_flight_fifo evsOnePush ⟨1, 4096⟩).2.2.1,
          (C3_drain_single_flight_fifo evsTwoPush ⟨3, 4096⟩).2.2.2.1 (by decide),
          (C3_drain_single_flight_fifo evsOnePush ⟨1, 4096⟩).2.2.2.2.1
            (by decide) (by decide),
          (C3_drain_single_flight_fifo evsTwoPush ⟨1, 4096⟩).2.2.2.2.2.1
            ⟨2, 4096⟩ [] (by decide) (by decide) (by decide) (by decide),
          (C3_drain_single_flight_fifo evsStarted ⟨9, 1⟩).2.2.2.2.2.2
            (by decide) (by decide) (by decide) (by decide)⟩

/-! ### C4 : stop is idempotent and quiescent -/

/-- C4: `stop()` is idempotent — a second `stop` returns the very same idle
state and performs no further action (its `try/catch` absorbs destroy
failures, so neither call errors) — it is safe in any machine state including
mid-iteration and mid-drain, and after it has returned not a single further
call (video send, audio send, capture or destroy) is issued, whatever events
other than a fresh `start()` occur. -/
theorem C4_stop_idempotent_quiescent (s : NdiState) (hst : s.starting = false)
    (evs : List NEv) (he : ∀ e ∈ evs, noStart e = true) :
    (stopST (stopST s).1).1 = (stopST s).1
    ∧ (stopST (stopST s).1).2 = []
    ∧ (stopST s).1.running = false ∧ (stopST s).1.sender = false
    ∧ (stopST s).1.timeoutDelay = none
    ∧ (ndiRunT (stopST s).1 evs).2 = [] := by
  obtain ⟨hq1, hq2⟩ := stopped_runT evs (stopST s).1 (stopST_stopped s hst) he
  obtain ⟨hi1, hi2⟩ := stopST_idem s
  have hsp := stopST_stopped s hst
  exact ⟨hi1, hi2, hsp.1, hsp.2.1, hsp.2.2.1, hq2⟩

/-- A manager caught mid-iteration (video send in flight) and mid-drain
(audio send in flight), with a queued chunk and an armed timer. -/
def c4state : NdiState :=
  { ndiInit with
    running := true, sender := true, audioEnabled := true,
    audioDraining := true, audioQueue := [⟨2, 4096⟩],
    timeoutDelay := some 10, vpc := VPc.sending 0, dpc := DPc.awaiting ⟨1, 4096⟩,
    ghostActiveDrains := 1, ghostInFlight := [⟨1, 4096⟩] }

/-- Witness for C4: stopping the mid-flight state twice, then resuming the
suspended capture, sends, a push, a timer fire and another stop — no call is
issued. -/
theorem C4_witness :
    ((stopST (stopST c4state).1).1 = (stopST c4state).1)
    ∧ ((stopST (stopST c4state).1).2 = [])
    ∧ ((stopST c4state).1.running = false) ∧ ((stopST c4state).1.sender = false)
    ∧ ((stopST c4state).1.timeoutDelay = none)
    ∧ ((ndiRunT (stopST c4state).1
        [NEv.captureDone true 5, NEv.videoSendDone 6, NEv.audioSendDone,
         NEv.pushAudio ⟨3, 4096⟩, NEv.timerFire 7, NEv.stopReq]).2 = []) :=
  C4_stop_idempotent_quiescent c4state (by decide) _ (by decide)

/-! ### C5 : re-arm delay formula -/

/-- C5: when an iteration completes while the stream is running — whether the
video send settled or the caught capture-failure path fell through — the
re-armed timer delay is exactly `max 1 (1000 / fps - (now - t0))`
milliseconds: nominal interval minus the measured iteration cost, floored at
the constant 1 ms. -/
theorem C5_rearm_delay (s : NdiState) (t0 now : ℚ) (hr : s.running = true) :
    (s.vpc = VPc.sending t0 →
      (videoDoneStep s now).1.timeoutDelay
        = some (max 1 (1000 / s.fps - (now - t0))))
    ∧ (s.vpc = VPc.capturing t0 →
      (captureDoneStep s false now).1.timeoutDelay
        = some (max 1 (1000 / s.fps - (now - t0)))) := by
  constructor
  · intro hv
    unfold videoDoneStep loopTail
    simp [hv, hr]
  · intro hv
    unfold captureDoneStep loopTail
    simp [hv, hr]

/-- A running 25 fps stream whose iteration started at t0 = 2. -/
def c5stateA : NdiState :=
  { ndiInit with
    running := true, sender := true, fps := 25, vpc := VPc.sending 2 }

/-- The same stream suspended in capture instead. -/
def c5stateB : NdiState :=
  { ndiInit with
    running := true, sender := true, fps := 25, vpc := VPc.capturing 2 }

/-- Witness for C5: both completion paths at fps 25, t0 = 2, now = 10. -/
theorem C5_witness :
    ((videoDoneStep c5stateA 10).1.timeoutDelay
      = some (max 1 (1000 / c5stateA.fps - (10 - 2))))
    ∧ ((captureDoneStep c5stateB false 10).1.timeoutDelay
      = some (max 1 (1000 / c5stateB.fps - (10 - 2)))) :=
  ⟨(C5_rearm_delay c5stateA 2 10 (by decide)).1 (by decide),
   (C5_rearm_delay c5stateB 2 10 (by decide)).2 (by decide)⟩

/-! ### C10 : stop discards the queue; start begins empty -/

/-- C10: `stop()` resets `_audioQueue` to `[]` — the buffered chunks are
discarded, and since no call at all is issued afterwards (absent a new
`start`) they are never sent; the completion of `start` likewise installs a
fresh empty queue before the session begins. -/
theorem C10_stop_discards_start_empty (s : NdiState) (hst : s.starting = false)
    (evs : List NEv) (he : ∀ e ∈ evs, noStart e = true)
    (s2 : NdiState) (now : ℚ) (h2 : s2.starting = true) :
    (stopST s).1.audioQueue = []
    ∧ (ndiRunT (stopST s).1 evs).2 = []
    ∧ (senderReadyStep s2 true now).1.audioQueue = [] := by
  refine ⟨?_, (stopped_runT evs _ (stopST_stopped s hst) he).2, ?_⟩
  · unfold stopST
    split <;> rfl
  · unfold senderReadyStep loopEntry stopST
    simp [h2]
    split <;> simp

/-- A manager with three chunks still buffered when stop arrives, and a
manager completing `start`. -/
def c10state : NdiState :=
  { ndiInit with
    running := true, sender := true, audioEnabled := true,
    audioDraining := true, dpc := DPc.awaiting ⟨1, 4096⟩,
    audioQueue := [⟨2, 4096⟩, ⟨3, 4096⟩, ⟨4, 4096⟩], ghostActiveDrains := 1,
    ghostInFlight := [⟨1, 4096⟩] }

def c10starting : NdiState :=
  { ndiInit with
    starting := true, audioQueue := [⟨7, 4096⟩] }

/-- Witness for C10: stopping with chunks 2..4 buffered empties the queue and
nothing is ever sent afterwards; completing `start` yields an empty queue. -/
theorem C10_witness :
    ((stopST c10state).1.audioQueue = [])
    ∧ ((ndiRunT (stopST c10state).1
        [NEv.audioSendDone, NEv.pushAudio ⟨5, 4096⟩, NEv.videoSendDone 3,
         NEv.timerFire 4]).2 = [])
    ∧ ((senderReadyStep c10starting true 0).1.audioQueue = []) :=
  C10_stop_discards_start_empty c10state (by decide) _ (by decide)
    c10starting 0 (by decide)

/-- Witness for C2: the bound, the full-queue eviction and the 9-push scenario
at concrete inputs. -/
theorem C2_witness :
    ((List.foldl pushQueue []
        [⟨1, 4096⟩, ⟨2, 4096⟩, ⟨3, 4096⟩, ⟨4, 4096⟩, ⟨5, 4096⟩,
         ⟨6, 4096⟩, ⟨7, 4096⟩, ⟨8, 4096⟩, ⟨9, 4096⟩] : List AChunk).length ≤ 8)
    ∧ pushQueue
        [⟨1, 1⟩, ⟨2, 1⟩, ⟨3, 1⟩, ⟨4, 1⟩, ⟨5, 1⟩, ⟨6, 1⟩, ⟨7, 1⟩, ⟨8, 1⟩] ⟨9, 1⟩ =
        ([⟨1, 1⟩, ⟨2, 1⟩, ⟨3, 1⟩, ⟨4, 1⟩, ⟨5, 1⟩, ⟨6, 1⟩, ⟨7, 1⟩, ⟨8, 1⟩] :
          List AChunk).tail ++ [⟨9, 1⟩] := by
  constructor
  · exact C2_audio_queue_drop_oldest.1 _
  · exact C2_audio_queue_drop_oldest.2.1 _ _ (by decide)

/-! ### preload-browser.cjs : AudioCaptureProcessor (worklet strategy)

The worklet source is the string `WORKLET_SOURCE` (preload-browser.cjs lines
321-367).  `_ch0`/`_ch1` are Float32Array scratch buffers of which only the
first `_pos` entries are ever read before the flush resets them, so each is
modelled as the list of accumulated samples (its length is `_pos`).  Sample
values are opaque to the processor (it only copies them), so they are a type
parameter. -/

universe u

variable {α : Type u}

/-- Processor state: `_size`, the accumulated samples of each channel, and the
`_stopped` flag set by the `stop` port message. -/
structure WState (α : Type u) where
  size : Nat
  ch0 : List α
  ch1 : List α
  stopped : Bool
deriving DecidableEq, Repr

/-- The constructor (line 323-333): `this._size = opts.bufferSize || 4096`,
fresh buffers, `_pos = 0`. -/
def initW (α : Type u) (bufferSize : Nat) : WState α :=
  ⟨if bufferSize = 0 then 4096 else bufferSize, [], [], false⟩

/-- The `while (rem > 0)` copy loop of `AudioCaptureProcessor.process`
(lines 343-362): take `n = min rem space` samples into the accumulation
buffers; whenever the buffer fills (`_pos >= _size`) post the planar chunk
`[ch0][ch1]` and reset.  Returns the final buffers and the chunks posted, in
order.  The `n = 0` early exit is unreachable from states with
`ch0.length < size` (the loop invariant of the source, where `space > 0`);
it only makes the recursion well founded. -/
def procLoop (size : Nat) (src0 src1 acc0 acc1 : List α) :
    List α × List α × List (List α) :=
  if h0 : src0.length = 0 then (acc0, acc1, [])
  else
    let n := min src0.length (size - acc0.length)
    if hn : n = 0 then (acc0, acc1, [])
    else
      let acc0b := acc0 ++ src0.take n
      let acc1b := acc1 ++ src1.take n
      if size ≤ acc0b.length then
        let r := procLoop size (src0.drop n) (src1.drop n) [] []
        (r.1, r.2.1, (acc0b ++ acc1b) :: r.2.2)
      else
        procLoop size (src0.drop n) (src1.drop n) acc0b acc1b
termination_by src0.length
decreasing_by
  · simp only [List.length_drop]
    omega
  · simp only [List.length_drop]
    omega

/-- `AudioCaptureProcessor.process(inputs)` (lines 335-364): returns `false`
once stopped, ignores empty input frames, and otherwise runs the copy loop on
the (up to two) channel arrays, duplicating channel 0 when the input is mono. -/
def wprocess (st : WState α) (inputs : List (List α)) :
    WState α × List (List α) × Bool :=
  if st.stopped then (st, [], false)
  else
    match inputs with
    | [] => (st, [], true)
    | src0 :: rest =>
        let src1 := match rest with | [] => src0 | s1 :: _ => s1
        let r := procLoop st.size src0 src1 st.ch0 st.ch1
        ({ st with ch0 := r.1, ch1 := r.2.1 }, r.2.2, true)

/-- Drive successive `process` calls with stereo blocks, collecting every chunk
posted on the port (each is forwarded unchanged as `{ noSamples, planarBuf }`
by the `node.port.onmessage` handler, lines 388-394). -/
def wfeed (st : WState α) : List (List α × List α) → WState α × List (List α)
  | [] => (st, [])
  | b :: bs =>
      let r := wprocess st [b.1, b.2]
      let q := wfeed r.1 bs
      (q.1, r.2.1 ++ q.2)

/-- Everything `procLoop` guarantees: per-channel conservation in order, planar
chunk shape, residual below the chunk size, and the sample count balance. -/
def ProcOut (size : Nat) (src0 src1 acc0 acc1 : List α) : Prop :=
  ((procLoop size src0 src1 acc0 acc1).2.2.map (fun ch => List.take size ch)).flatten
      ++ (procLoop size src0 src1 acc0 acc1).1 = acc0 ++ src0
  ∧ ((procLoop size src0 src1 acc0 acc1).2.2.map (fun ch => List.drop size ch)).flatten
      ++ (procLoop size src0 src1 acc0 acc1).2.1 = acc1 ++ src1
  ∧ (∀ ch ∈ (procLoop size src0 src1 acc0 acc1).2.2, ch.length = 2 * size)
  ∧ (procLoop size src0 src1 acc0 acc1).1.length < size
  ∧ (procLoop size src0 src1 acc0 acc1).2.1.length
      = (procLoop size src0 src1 acc0 acc1).1.length
  ∧ (procLoop size src0 src1 acc0 acc1).2.2.length * size
      + (procLoop size src0 src1 acc0 acc1).1.length
      = acc0.length + src0.length

theorem procLoop_spec (size : Nat) (hsz : 0 < size) :
    ∀ (N : Nat) (src0 src1 acc0 acc1 : List α),
      src0.length ≤ N → src1.length = src0.length →
      acc1.length = acc0.length → acc0.length < size →
      ProcOut size src0 src1 acc0 acc1 := by
  intro N
  induction N with
  | zero =>
      intro src0 src1 acc0 acc1 hN h10 hacc hlt
      have h0 : src0.length = 0 := Nat.le_zero.mp hN
      have h0s : src0 = [] := List.length_eq_zero.mp h0
      have h1s : src1 = [] := List.length_eq_zero.mp (by omega)
      unfold ProcOut procLoop
      rw [dif_pos h0]
      simp [h0s, h1s, hacc, hlt]
  | succ N ih =>
      intro src0 src1 acc0 acc1 hN h10 hacc hlt
      by_cases h0 : src0.length = 0
      · have h0s : src0 = [] := List.length_eq_zero.mp h0
        have h1s : src1 = [] := List.length_eq_zero.mp (by omega)
        unfold ProcOut procLoop
        rw [dif_pos h0]
        simp [h0s, h1s, hacc, hlt]
      · have hn : ¬ min src0.length (size - acc0.length) = 0 := by omega
        unfold ProcOut procLoop
        rw [dif_neg h0, dif_neg hn]
        generalize hdefn : min src0.length (size - acc0.length) = n
        have hn1 : 1 ≤ n := by omega
        have hnsrc : n ≤ src0.length := by omega
        have hnspace : n ≤ size - acc0.length := by omega
        have htk0 : (src0.take n).length = n := by
          simp only [List.length_take]
          omega
        have htk1 : (src1.take n).length = n := by
          simp only [List.length_take]
          omega
        have hdk : (src0.drop n).length ≤ N := by
          simp only [List.length_drop]
          omega
        have hdk10 : (src1.drop n).length = (src0.drop n).length := by
          simp only [List.length_drop, h10]
        have hsplit : n + (src0.drop n).length = src0.length := by
          simp only [List.length_drop]
          omega
        by_cases hfull : size ≤ (acc0 ++ src0.take n).length
        · have hsz0 : (acc0 ++ src0.take n).length = size := by
            simp only [List.length_append, htk0] at hfull ⊢
            omega
          have hsz1 : (acc1 ++ src1.take n).length = size := by
            simp only [List.length_append, htk0] at hsz0
            simp only [List.length_append, htk1]
            omega
          rw [if_pos hfull]
          obtain ⟨g1, g2, g3, g4, g5, g6⟩ :=
            ih (src0.drop n) (src1.drop n) [] [] hdk hdk10 rfl hsz
          refine ⟨?_, ?_, ?_, g4, g5, ?_⟩
          · rw [List.map_cons, List.flatten_cons, List.take_left' hsz0,
              List.append_assoc, g1, List.nil_append, List.append_assoc,
              List.take_append_drop]
          · rw [List.map_cons, List.flatten_cons, List.drop_left' hsz0,
              List.append_assoc, g2, List.nil_append, List.append_assoc,
              List.take_append_drop]
          · intro ch hch
            rcases List.mem_cons.mp hch with hch | hch
            · subst hch
              rw [List.length_append, hsz0, hsz1]
              omega
            · exact g3 ch hch
          · have hlin : acc0.length + n = size := by
              simp only [List.length_append, htk0] at hsz0
              omega
            simp only [List.length_nil, Nat.zero_add] at g6
            simp only [List.length_cons]
            rw [add_one_mul]
            linarith [g6, hsplit, hlin]
        · rw [if_neg hfull]
          have hltb : (acc0 ++ src0.take n).length < size := by omega
          have haccb : (acc1 ++ src1.take n).length
              = (acc0 ++ src0.take n).length := by
            simp [htk0, htk1, hacc]
          obtain ⟨g1, g2, g3, g4, g5, g6⟩ :=
            ih (src0.drop n) (src1.drop n) (acc0 ++ src0.take n)
              (acc1 ++ src1.take n) hdk hdk10 haccb hltb
          refine ⟨?_, ?_, g3, g4, g5, ?_⟩
          · rw [g1, List.append_assoc, List.take_append_drop]
          · rw [g2, List.append_assoc, List.take_append_drop]
          · simp only [List.length_append, htk0] at g6
            linarith [g6, hsplit]

theorem wfeed_spec (z : Nat) (hz : 0 < z) :
    ∀ (bs : List (List α × List α)) (st : WState α),
      (∀ b ∈ bs, b.2.length = b.1.length) →
      st.stopped = false → st.size = z →
      st.ch1.length = st.ch0.length → st.ch0.length < z →
      ((wfeed st bs).2.map (fun ch => List.take z ch)).flatten
          ++ (wfeed st bs).1.ch0 = st.ch0 ++ (bs.map Prod.fst).flatten
      ∧ ((wfeed st bs).2.map (fun ch => List.drop z ch)).flatten
          ++ (wfeed st bs).1.ch1 = st.ch1 ++ (bs.map Prod.snd).flatten
      ∧ (∀ ch ∈ (wfeed st bs).2, ch.length = 2 * z)
      ∧ (wfeed st bs).1.ch0.length < z
      ∧ (wfeed st bs).1.ch1.length = (wfeed st bs).1.ch0.length
      ∧ (wfeed st bs).1.stopped = false
      ∧ (wfeed st bs).1.size = z
      ∧ (wfeed st bs).2.length * z + (wfeed st bs).1.ch0.length
          = st.ch0.length + (bs.map Prod.fst).flatten.length := by
  intro bs
  induction bs with
  | nil =>
      intro st hb hstop hsize hch hlt
      refine ⟨?_, ?_, ?_, ?_, ?_, ?_, ?_, ?_⟩ <;>
        simp [wfeed, hlt, hch, hstop, hsize]
  | cons b bs ihb =>
      intro st hb hstop hsize hch hlt
      obtain ⟨sz, c0, c1, stp⟩ := st
      dsimp only at hstop hsize hch hlt
      subst hstop
      have hsz2 : z = sz := hsize.symm
      subst hsz2
      have hred : wfeed (⟨z, c0, c1, false⟩ : WState α) (b :: bs)
          = ((wfeed ⟨z, (procLoop z b.1 b.2 c0 c1).1,
                       (procLoop z b.1 b.2 c0 c1).2.1, false⟩ bs).1,
             (procLoop z b.1 b.2 c0 c1).2.2
               ++ (wfeed ⟨z, (procLoop z b.1 b.2 c0 c1).1,
                            (procLoop z b.1 b.2 c0 c1).2.1, false⟩ bs).2) := rfl
      obtain ⟨p1, p2, p3, p4, p5, p6⟩ :=
        procLoop_spec z hz b.1.length b.1 b.2 c0 c1 le_rfl
          (hb b (by simp)) hch hlt
      obtain ⟨i1, i2, i3, i4, i5, i6, i7, i8⟩ :=
        ihb ⟨z, (procLoop z b.1 b.2 c0 c1).1,
             (procLoop z b.1 b.2 c0 c1).2.1, false⟩
          (fun x hx => hb x (by simp [hx])) rfl rfl p5 p4
      dsimp only at i1 i2 i3 i4 i5 i6 i7 i8
      rw [hred]
      dsimp only
      refine ⟨?_, ?_, ?_, i4, i5, i6, i7, ?_⟩
      · rw [List.map_append, List.flatten_append, List.append_assoc, i1,
          ← List.append_assoc, p1, List.map_cons, List.flatten_cons,
          List.append_assoc]
      · rw [List.map_append, List.flatten_append, List.append_assoc, i2,
          ← List.append_assoc, p2, List.map_cons, List.flatten_cons,
          List.append_assoc]
      · intro ch hch2
        rcases List.mem_append.mp hch2 with h | h
        · exact p3 ch h
        · exact i3 ch h
      · rw [List.length_append, List.map_cons, List.flatten_cons,
          List.length_append, Nat.add_mul]
        linarith [p6, i8]

/-! ### C6 : fixed-size planar accumulation -/

/-- C6: feeding the fresh worklet processor (chunk size 4096) any sequence of
stereo blocks of arbitrary sizes, every posted chunk is planar with exactly
4096 samples per channel (first half from channel 0, second from channel 1);
per channel, the concatenation of the emitted halves followed by the residual
buffer is exactly the input stream in order (no sample is ever dropped, and
partial trailing samples stay buffered); and 12288 input samples per channel
produce exactly 3 chunks with nothing left over. -/
theorem C6_capture_accumulation (bs : List (List Int × List Int))
    (hb : ∀ b ∈ bs, b.2.length = b.1.length) :
    (∀ ch ∈ (wfeed (initW Int 4096) bs).2,
        ch.length = 2 * 4096 ∧ (List.take 4096 ch).length = 4096
          ∧ ch = ch.take 4096 ++ ch.drop 4096)
    ∧ ((wfeed (initW Int 4096) bs).2.map (fun ch => List.take 4096 ch)).flatten
        ++ (wfeed (initW Int 4096) bs).1.ch0 = (bs.map Prod.fst).flatten
    ∧ ((wfeed (initW Int 4096) bs).2.map (fun ch => List.drop 4096 ch)).flatten
        ++ (wfeed (initW Int 4096) bs).1.ch1 = (bs.map Prod.snd).flatten
    ∧ ((bs.map Prod.fst).flatten.length = 12288 →
        (wfeed (initW Int 4096) bs).2.length = 3
        ∧ (wfeed (initW Int 4096) bs).1.ch0 = []) := by
  obtain ⟨w1, w2, w3, w4, w5, w6, w7, w8⟩ :=
    wfeed_spec 4096 (by norm_num) bs (initW Int 4096) hb rfl rfl rfl
      (by norm_num [initW])
  refine ⟨?_, ?_, ?_, ?_⟩
  · intro ch hch
    have hl := w3 ch hch
    refine ⟨hl, ?_, (List.take_append_drop 4096 ch).symm⟩
    rw [List.length_take, hl]
    omega
  · simpa [initW] using w1
  · simpa [initW] using w2
  · intro h12
    have hinit : (initW Int 4096).ch0.length = 0 := rfl
    rw [hinit, Nat.zero_add, h12] at w8
    constructor
    · omega
    · exact List.length_eq_zero.mp (by omega)

/-- The 12288-sample input (one oversized native block per channel). -/
def c6input : List (List Int × List Int) :=
  [(List.replicate 12288 0, List.replicate 12288 0)]

/-- Witness for C6: one 12288-sample stereo block yields exactly three planar
4096-sample chunks, in order, with an empty residual. -/
theorem C6_witness :
    (∀ ch ∈ (wfeed (initW Int 4096) c6input).2,
        ch.length = 2 * 4096 ∧ (List.take 4096 ch).length = 4096
          ∧ ch = ch.take 4096 ++ ch.drop 4096)
    ∧ ((wfeed (initW Int 4096) c6input).2.map
          (fun ch => List.take 4096 ch)).flatten
        ++ (wfeed (initW Int 4096) c6input).1.ch0
          = (c6input.map Prod.fst).flatten
    ∧ ((wfeed (initW Int 4096) c6input).2.map
          (fun ch => List.drop 4096 ch)).flatten
        ++ (wfeed (initW Int 4096) c6input).1.ch1
          = (c6input.map Prod.snd).flatten
    ∧ ((wfeed (initW Int 4096) c6input).2.length = 3
        ∧ (wfeed (initW Int 4096) c6input).1.ch0 = []) := by
  have h := C6_capture_accumulation c6input
    (by intro b hbm; simp only [c6input, List.mem_singleton] at hbm; subst hbm; rfl)
  exact ⟨h.1, h.2.1, h.2.2.1, h.2.2.2 (by
    simp only [c6input, List.map_cons, List.map_nil, List.flatten_cons,
      List.flatten_nil, List.append_nil, List.length_replicate])⟩

/-! ### preload-browser.cjs : ScriptProcessorNode fallback and C9 -/

/-- One `onaudioprocess` callback of the ScriptProcessorNode fallback
(`_createScriptNode`, preload-browser.cjs lines 407-421): read the two channel
arrays of the callback buffer and send one planar chunk `[ch0][ch1]` with
`noSamples = ch0.length`.  This strategy does no accumulation of its own —
the Web Audio graph hands it full `bufferSize`-frame buffers. -/
def scriptChunk (b0 b1 : List α) : List α := b0 ++ b1

/-- The chunk sequence the fallback emits over a run of callbacks. -/
def scriptFeed : List (List α × List α) → List (List α)
  | [] => []
  | b :: bs => scriptChunk b.1 b.2 :: scriptFeed bs

/-- The canonical fixed-size planar chunking of a pair of equal-length sample
streams: used to prove both strategies emit the same sequence. -/
def canonChunks (z : Nat) (s0 s1 : List α) : List (List α) :=
  if h : z = 0 ∨ s0.length < z then []
  else (s0.take z ++ s1.take z) :: canonChunks z (s0.drop z) (s1.drop z)
termination_by s0.length
decreasing_by
  simp only [List.length_drop]
  omega

theorem scriptFeed_canon (z : Nat) (hz : 0 < z) :
    ∀ bs : List (List α × List α),
      (∀ b ∈ bs, b.1.length = z ∧ b.2.length = z) →
      scriptFeed bs
        = canonChunks z (bs.map Prod.fst).flatten (bs.map Prod.snd).flatten := by
  intro bs
  induction bs with
  | nil =>
      intro _
      rw [scriptFeed, List.map_nil, List.map_nil, List.flatten_nil, canonChunks,
        dif_pos (Or.inr (by simpa using hz))]
  | cons b bs ih =>
      intro hb
      have hb1 := (hb b (by simp)).1
      have hb2 := (hb b (by simp)).2
      have hbs : ∀ x ∈ bs, x.1.length = z ∧ x.2.length = z :=
        fun x hx => hb x (by simp [hx])
      have hcond : ¬(z = 0
          ∨ (b.1 ++ (bs.map Prod.fst).flatten).length < z) := by
        push_neg
        refine ⟨by omega, ?_⟩
        simp only [List.length_append, hb1]
        omega
      rw [scriptFeed, List.map_cons, List.map_cons, List.flatten_cons,
        List.flatten_cons, canonChunks, dif_neg hcond,
        List.take_left' hb1, List.take_left' hb2,
        List.drop_left' hb1, List.drop_left' hb2, scriptChunk, ih hbs]

theorem chunks_canon (z : Nat) (hz : 0 < z) :
    ∀ L : List (List α),
      (∀ ch ∈ L, ch.length = 2 * z) →
      L = canonChunks z (L.map (fun ch => List.take z ch)).flatten
            (L.map (fun ch => List.drop z ch)).flatten := by
  intro L
  induction L with
  | nil =>
      intro _
      rw [List.map_nil, List.map_nil, List.flatten_nil, canonChunks,
        dif_pos (Or.inr (by simpa using hz))]
  | cons ch L ih =>
      intro hch
      have hlch : ch.length = 2 * z := hch ch (by simp)
      have htake : (List.take z ch).length = z := by
        rw [List.length_take, hlch]
        omega
      have hdrop : (List.drop z ch).length = z := by
        rw [List.length_drop, hlch]
        omega
      have hcond : ¬(z = 0
          ∨ (List.take z ch
              ++ (L.map (fun c => List.take z c)).flatten).length < z) := by
        push_neg
        refine ⟨by omega, ?_⟩
        simp only [List.length_append, htake]
        omega
      rw [List.map_cons, List.map_cons, List.flatten_cons, List.flatten_cons,
        canonChunks, dif_neg hcond,
        List.take_left' htake, List.take_left' hdrop,
        List.drop_left' htake, List.drop_left' hdrop,
        ← ih (fun x hx => hch x (by simp [hx])), List.take_append_drop]

/-- Per-channel length of the flattened script-side callback stream. -/
theorem flatten_blocks_length (z : Nat) :
    ∀ bs : List (List Int × List Int),
      (∀ b ∈ bs, b.1.length = z) →
      (bs.map Prod.fst).flatten.length = bs.length * z := by
  intro bs
  induction bs with
  | nil => intro _; simp
  | cons b bs ih =>
      intro hb
      simp only [List.map_cons, List.flatten_cons, List.length_append,
        List.length_cons, hb b (by simp)]
      rw [ih (fun x hx => hb x (by simp [hx])), add_one_mul]
      ring

/-- C9: the preferred AudioWorklet strategy and the ScriptProcessor fallback
have an identical output contract — for the same per-channel sample streams
and the same chunk size `z`, the worklet fed any partitioning of the stream
into native blocks emits exactly the chunk sequence the script node emits
from its `z`-frame callbacks, so consumers cannot tell which strategy ran. -/
theorem C9_strategy_equivalence (z : Nat) (hz : 0 < z)
    (bsW : List (List Int × List Int))
    (hbW : ∀ b ∈ bsW, b.2.length = b.1.length)
    (bsS : List (List Int × List Int))
    (hbS : ∀ b ∈ bsS, b.1.length = z ∧ b.2.length = z)
    (hsame0 : (bsW.map Prod.fst).flatten = (bsS.map Prod.fst).flatten)
    (hsame1 : (bsW.map Prod.snd).flatten = (bsS.map Prod.snd).flatten) :
    (wfeed (initW Int z) bsW).2 = scriptFeed bsS := by
  have hsz : (initW Int z).size = z := by
    simp only [initW]
    rw [if_neg (by omega)]
  obtain ⟨w1, w2, w3, w4, w5, w6, w7, w8⟩ :=
    wfeed_spec z hz bsW (initW Int z) hbW rfl hsz rfl (by simpa [initW] using hz)
  have htot : (bsW.map Prod.fst).flatten.length = bsS.length * z := by
    rw [hsame0]
    exact flatten_blocks_length z bsS (fun b hb2 => (hbS b hb2).1)
  have h8 : (wfeed (initW Int z) bsW).2.length * z
      + (wfeed (initW Int z) bsW).1.ch0.length = bsS.length * z := by
    rw [← htot]
    simpa [initW] using w8
  have hdvd : z ∣ (wfeed (initW Int z) bsW).1.ch0.length := by
    have hd1 : z ∣ (wfeed (initW Int z) bsW).2.length * z
        + (wfeed (initW Int z) bsW).1.ch0.length := by
      rw [h8]
      exact dvd_mul_left z bsS.length
    exact (Nat.dvd_add_right (dvd_mul_left z _)).mp hd1
  have hres0 : (wfeed (initW Int z) bsW).1.ch0 = [] :=
    List.length_eq_zero.mp (Nat.eq_zero_of_dvd_of_lt hdvd w4)
  have hres1 : (wfeed (initW Int z) bsW).1.ch1 = [] := by
    refine List.length_eq_zero.mp ?_
    rw [w5, hres0]
    rfl
  have hj0 : ((wfeed (initW Int z) bsW).2.map
      (fun ch => List.take z ch)).flatten = (bsS.map Prod.fst).flatten := by
    have h := w1
    rw [hres0] at h
    simpa [initW, hsame0] using h
  have hj1 : ((wfeed (initW Int z) bsW).2.map
      (fun ch => List.drop z ch)).flatten = (bsS.map Prod.snd).flatten := by
    have h := w2
    rw [hres1] at h
    simpa [initW, hsame1] using h
  calc (wfeed (initW Int z) bsW).2
      = canonChunks z
          ((wfeed (initW Int z) bsW).2.map (fun ch => List.take z ch)).flatten
          ((wfeed (initW Int z) bsW).2.map (fun ch => List.drop z ch)).flatten :=
        chunks_canon z hz _ w3
    _ = canonChunks z (bsS.map Prod.fst).flatten (bsS.map Prod.snd).flatten := by
        rw [hj0, hj1]
    _ = scriptFeed bsS := (scriptFeed_canon z hz bsS hbS).symm

/-- Worklet-side blocks of irregular sizes, and the same streams as two
2-frame script callbacks. -/
def c9bsW : List (List Int × List Int) :=
  [([1, 2, 3], [11, 12, 13]), ([4], [14])]

def c9bsS : List (List Int × List Int) :=
  [([1, 2], [11, 12]), ([3, 4], [13, 14])]

/-- Witness for C9: chunk size 2, the same 4-sample stereo stream split as 3+1
native blocks for the worklet and as two 2-frame callbacks for the script
node — identical chunk sequences. -/
theorem C9_witness :
    (wfeed (initW Int 2) c9bsW).2 = scriptFeed c9bsS :=
  C9_strategy_equivalence 2 (by norm_num) c9bsW (by decide) c9bsS (by decide)
    (by decide) (by decide)

/-! ### preload-browser.cjs : BridgedBroadcastChannel

The relay (preload-browser.cjs lines 214-312) replaces `BroadcastChannel`
with a bridged class: a module-level `registry : Map<string, Set>` of local
instances, `postMessage` with `structuredClone` fan-out plus an
`ipcRenderer.send` forward, asynchronous `_dispatch` via `queueMicrotask`,
and a receive handler for messages relayed by main.cjs.

JavaScript values are modelled as trees.  Composite values (arrays/objects)
carry an allocation identity `id : Nat`, which models reference identity:
two values share mutable state exactly when their id sets intersect;
primitives have no identity.  `structuredClone` produces a fresh-id copy and
throws on function values.  Electron IPC serialization additionally rejects
some values that in-renderer `structuredClone` accepts; those are modelled by
the leaf kind `hostile` — this is precisely the failure that the `try/catch`
around `ipcRenderer.send` (lines 255-262) absorbs. -/

/-- Leaf kinds: JSON primitives, a function value (not structured-cloneable),
and a cloneable-but-not-IPC-serializable value. -/
inductive JKind where
  | num (n : Int)
  | str (s : String)
  | boolv (b : Bool)
  | nullv
  | fnv
  | hostile
deriving DecidableEq, Repr

mutual
inductive JVal where
  | leaf (k : JKind)
  | arr (id : Nat) (elems : JList)
inductive JList where
  | nil
  | cons (hd : JVal) (tl : JList)
end

mutual
inductive PVal where
  | leaf (k : JKind)
  | arr (elems : PList)
inductive PList where
  | nil
  | cons (hd : PVal) (tl : PList)
end

mutual
/-- The identity-erased shape of a value; deep equality of JS values is
equality of erased shapes. -/
def eraseV : JVal → PVal
  | JVal.leaf k => PVal.leaf k
  | JVal.arr _ es => PVal.arr (eraseL es)
def eraseL : JList → PList
  | JList.nil => PList.nil
  | JList.cons v vs => PList.cons (eraseV v) (eraseL vs)
end

mutual
/-- All allocation identities occurring in a value. -/
def idsV : JVal → List Nat
  | JVal.leaf _ => []
  | JVal.arr i es => i :: idsL es
def idsL : JList → List Nat
  | JList.nil => []
  | JList.cons v vs => idsV v ++ idsL vs
end

mutual
/-- Whether the value contains a function (making `structuredClone` throw). -/
def hasFnV : JVal → Bool
  | JVal.leaf k => k == JKind.fnv
  | JVal.arr _ es => hasFnL es
def hasFnL : JList → Bool
  | JList.nil => false
  | JList.cons v vs => hasFnV v || hasFnL vs
end

mutual
/-- Whether the value contains an IPC-hostile part. -/
def hasHostileV : JVal → Bool
  | JVal.leaf k => k == JKind.hostile
  | JVal.arr _ es => hasHostileL es
def hasHostileL : JList → Bool
  | JList.nil => false
  | JList.cons v vs => hasHostileV v || hasHostileL vs
end

mutual
/-- `structuredClone`: structurally copy the value giving every composite a
fresh identity drawn from the counter; `none` models the DataCloneError
thrown on function values. -/
def cloneV : JVal → Nat → Option (JVal × Nat)
  | JVal.leaf k, c => if k == JKind.fnv then none else some (JVal.leaf k, c)
  | JVal.arr _ es, c =>
      match cloneL es c with
      | none => none
      | some (es2, c2) => some (JVal.arr c2 es2, c2 + 1)
def cloneL : JList → Nat → Option (JList × Nat)
  | JList.nil, c => some (JList.nil, c)
  | JList.cons v vs, c =>
      match cloneV v c with
      | none => none
      | some (v2, c2) =>
          match cloneL vs c2 with
          | none => none
          | some (vs2, c3) => some (JList.cons v2 vs2, c3)
end

mutual
theorem cloneV_spec : ∀ (v : JVal) (c : Nat) (v2 : JVal) (c2 : Nat),
    cloneV v c = some (v2, c2) →
    eraseV v2 = eraseV v ∧ c ≤ c2 ∧ ∀ i ∈ idsV v2, c ≤ i ∧ i < c2
  | JVal.leaf k, c, v2, c2 => by
      intro h
      unfold cloneV at h
      split at h
      · exact absurd h (by simp)
      · simp only [Option.some.injEq, Prod.mk.injEq] at h
        obtain ⟨h1, h2⟩ := h
        subst h1
        subst h2
        exact ⟨rfl, le_rfl, by simp [idsV]⟩
  | JVal.arr i es, c, v2, c2 => by
      intro h
      unfold cloneV at h
      rcases hes : cloneL es c with _ | ⟨es2, c3⟩
      · rw [hes] at h
        exact absurd h (by simp)
      · rw [hes] at h
        simp only [Option.some.injEq, Prod.mk.injEq] at h
        obtain ⟨h1, h2⟩ := h
        subst h1
        subst h2
        obtain ⟨g1, g2, g3⟩ := cloneL_spec es c es2 c3 hes
        refine ⟨by simp [eraseV, g1], by omega, ?_⟩
        intro j hj
        simp only [idsV, List.mem_cons] at hj
        rcases hj with hj | hj
        · omega
        · have := g3 j hj
          omega
theorem cloneL_spec : ∀ (vs : JList) (c : Nat) (vs2 : JList) (c2 : Nat),
    cloneL vs c = some (vs2, c2) →
    eraseL vs2 = eraseL vs ∧ c ≤ c2 ∧ ∀ i ∈ idsL vs2, c ≤ i ∧ i < c2
  | JList.nil, c, vs2, c2 => by
      intro h
      unfold cloneL at h
      simp only [Option.some.injEq, Prod.mk.injEq] at h
      obtain ⟨h1, h2⟩ := h
      subst h1
      subst h2
      exact ⟨rfl, le_rfl, by simp [idsL]⟩
  | JList.cons v vs, c, vs2, c2 => by
      intro h
      unfold cloneL at h
      rcases hv : cloneV v c with _ | ⟨v2, c3⟩
      · rw [hv] at h
        exact absurd h (by simp)
      · rw [hv] at h
        dsimp only at h
        rcases hvs : cloneL vs c3 with _ | ⟨vs3, c4⟩
        · rw [hvs] at h
          exact absurd h (by simp)
        · rw [hvs] at h
          simp only [Option.some.injEq, Prod.mk.injEq] at h
          obtain ⟨h1, h2⟩ := h
          subst h1
          subst h2
          obtain ⟨g1, g2, g3⟩ := cloneV_spec v c v2 c3 hv
          obtain ⟨k1, k2, k3⟩ := cloneL_spec vs c3 vs3 c4 hvs
          refine ⟨by simp [eraseL, g1, k1], by omega, ?_⟩
          intro j hj
          simp only [idsL, List.mem_append] at hj
          rcases hj with hj | hj
          · have := g3 j hj
            omega
          · have := k3 j hj
            omega
end

mutual
theorem cloneV_total : ∀ (v : JVal) (c : Nat), hasFnV v = false →
    ∃ r, cloneV v c = some r
  | JVal.leaf k, c => by
      intro h
      unfold hasFnV at h
      exact ⟨(JVal.leaf k, c), by unfold cloneV; rw [if_neg (by simp_all)]⟩
  | JVal.arr i es, c => by
      intro h
      unfold hasFnV at h
      obtain ⟨⟨es2, c2⟩, hr⟩ := cloneL_total es c h
      exact ⟨(JVal.arr c2 es2, c2 + 1), by unfold cloneV; rw [hr]⟩
theorem cloneL_total : ∀ (vs : JList) (c : Nat), hasFnL vs = false →
    ∃ r, cloneL vs c = some r
  | JList.nil, c => by
      intro _
      exact ⟨(JList.nil, c), rfl⟩
  | JList.cons v vs, c => by
      intro h
      unfold hasFnL at h
      simp only [Bool.or_eq_false_iff] at h
      obtain ⟨⟨v2, c2⟩, hv⟩ := cloneV_total v c h.1
      obtain ⟨⟨vs2, c3⟩, hvs⟩ := cloneL_total vs c2 h.2
      exact ⟨(JList.cons v2 vs2, c3), by unfold cloneL; simp only [hv, hvs]⟩
end

mutual
theorem cloneV_fails : ∀ (v : JVal) (c : Nat), hasFnV v = true →
    cloneV v c = none
  | JVal.leaf k, c => by
      intro h
      unfold hasFnV at h
      unfold cloneV
      rw [if_pos h]
  | JVal.arr i es, c => by
      intro h
      unfold hasFnV at h
      unfold cloneV
      rw [cloneL_fails es c h]
theorem cloneL_fails : ∀ (vs : JList) (c : Nat), hasFnL vs = true →
    cloneL vs c = none
  | JList.nil, c => by
      intro h
      exact absurd h (by unfold hasFnL; simp)
  | JList.cons v vs, c => by
      intro h
      unfold hasFnL at h
      unfold cloneL
      rcases hv : hasFnV v with _ | _
      · rw [hv] at h
        simp only [Bool.false_or] at h
        rcases hc : cloneV v c with _ | ⟨v2, c2⟩
        · rfl
        · dsimp only
          rw [cloneL_fails vs c2 h]
      · rw [cloneV_fails v c hv]
end

/- The function-content and hostile-content tests on erased shapes: these let
clone-invariance of `hasFnV`/`hasHostileV` follow from erasure preservation. -/
mutual
/-- Function content of an erased shape. -/
def hasFnP : PVal → Bool
  | PVal.leaf k => k == JKind.fnv
  | PVal.arr es => hasFnPL es
def hasFnPL : PList → Bool
  | PList.nil => false
  | PList.cons v vs => hasFnP v || hasFnPL vs
end

mutual
/-- Hostile content of an erased shape. -/
def hasHostileP : PVal → Bool
  | PVal.leaf k => k == JKind.hostile
  | PVal.arr es => hasHostilePL es
def hasHostilePL : PList → Bool
  | PList.nil => false
  | PList.cons v vs => hasHostileP v || hasHostilePL vs
end

mutual
theorem hasFnV_erase : ∀ v : JVal, hasFnV v = hasFnP (eraseV v)
  | JVal.leaf k => rfl
  | JVal.arr i es => hasFnL_erase es
theorem hasFnL_erase : ∀ vs : JList, hasFnL vs = hasFnPL (eraseL vs)
  | JList.nil => rfl
  | JList.cons v vs => by
      unfold hasFnL eraseL hasFnPL
      rw [hasFnV_erase v, hasFnL_erase vs]
end

mutual
theorem hasHostileV_erase : ∀ v : JVal, hasHostileV v = hasHostileP (eraseV v)
  | JVal.leaf k => rfl
  | JVal.arr i es => hasHostileL_erase es
theorem hasHostileL_erase : ∀ vs : JList,
    hasHostileL vs = hasHostilePL (eraseL vs)
  | JList.nil => rfl
  | JList.cons v vs => by
      unfold hasHostileL eraseL hasHostilePL
      rw [hasHostileV_erase v, hasHostileL_erase vs]
end

/-! ### The relay context -/

/-- One `BridgedBroadcastChannel` object: its channel name (line 222) and
closed flag (line 223). -/
structure Chan where
  name : String
  closed : Bool
deriving DecidableEq, Repr

/-- One renderer context: the store of every constructed channel object
(id → object), the module-level `registry` Map mirroring
name → insertion-ordered set of registered instances (lines 216-217), the
pending `queueMicrotask` dispatches of `_dispatch` (line 291), and the ghost
log of deliveries performed (message events actually dispatched). -/
structure Ctx where
  store : List (Nat × Chan)
  registry : List (String × List Nat)
  micro : List (Nat × JVal)
  received : List (Nat × JVal)

/-- The closed flag of instance `i` in an object store; an id that was never
constructed acts as closed. -/
def isClosedL (l : List (Nat × Chan)) (i : Nat) : Bool :=
  match l.lookup i with
  | some ch => ch.closed
  | none => true

/-- `_closed` of instance `i` (an id never constructed acts as closed). -/
def isClosed (ctx : Ctx) (i : Nat) : Bool := isClosedL ctx.store i

/-- `this.name` of instance `i`. -/
def nameOf (ctx : Ctx) (i : Nat) : String :=
  match ctx.store.lookup i with
  | some ch => ch.name
  | none => ""

/-- `registry.get(nm)` as an id list (empty when absent). -/
def chanSubs (ctx : Ctx) (nm : String) : List Nat :=
  match ctx.registry.lookup nm with
  | some ids => ids
  | none => []

/-- The constructor (preload-browser.cjs lines 220-231): allocate a fresh
object with `closed = false` and add it to the registry set for its name
(creating the entry when absent). -/
def construct (ctx : Ctx) (ctr : Nat) (nm : String) : Ctx × Nat :=
  ({ ctx with
     store := ctx.store ++ [(ctr, ⟨nm, false⟩)],
     registry :=
       match ctx.registry.lookup nm with
       | some _ =>
           ctx.registry.map
             (fun p => if p.1 = nm then (p.1, p.2 ++ [ctr]) else p)
       | none => ctx.registry ++ [(nm, [ctr])] },
   ctr + 1)

/-- `close()` (lines 265-273): idempotent; sets `_closed`, removes the
instance from its registry set, and deletes the name entry once its set is
empty. -/
def closeCh (ctx : Ctx) (i : Nat) : Ctx :=
  if isClosed ctx i then ctx
  else
    { ctx with
      store := ctx.store.map
        (fun p => if p.1 = i then (p.1, { p.2 with closed := true }) else p),
      registry :=
        (ctx.registry.map
          (fun p => if p.1 = nameOf ctx i
            then (p.1, p.2.filter (fun j => j != i)) else p)).filter
          (fun p => !(p.1 == nameOf ctx i && p.2.isEmpty)) }

/-- Clone `m` once per target and queue the corresponding `_dispatch`
microtasks (the loop of lines 246-252).  `m` is itself the result of a
successful clone, so it contains no function and the `none` branch is
unreachable; skipping keeps the function total. -/
def scheduleFor (m : JVal) : List Nat → Nat → List (Nat × JVal) × Nat
  | [], c => ([], c)
  | j :: js, c =>
      match cloneV m c with
      | none => scheduleFor m js c
      | some (v, c2) =>
          let r := scheduleFor m js c2
          ((j, v) :: r.1, r.2)

/-- Whether Electron IPC serialization of the payload succeeds; the failure
is what the `try/catch` around `ipcRenderer.send` (lines 255-262) absorbs. -/
def ipcOkV (v : JVal) : Bool := !hasFnV v && !hasHostileV v

/-- Failures `postMessage` can throw: the InvalidStateError of lines 235-240
on a closed channel (the ClosedResourceError of the spec), and the
DataCloneError thrown by `structuredClone(message)` at line 242. -/
inductive PErr where
  | closed
  | dataClone
deriving DecidableEq, Repr

/-- `postMessage(message)` (lines 234-263): throw when closed; deep-copy the
message once — a throw here aborts the call before any delivery; schedule an
asynchronous `_dispatch` with an independent deep copy for every other open
local instance of the same name; forward `cloned` once over
`ipcRenderer.send`, silently skipping the forward when IPC serialization
fails.  Returns the context, the allocation counter, the forwarded payload
if any, and (ghost) the scheduled local deliveries — the same list appended
to `micro`. -/
def postMessage (ctx : Ctx) (ctr selfId : Nat) (msg : JVal) :
    Except PErr (Ctx × Nat × Option (String × JVal) × List (Nat × JVal)) :=
  if isClosed ctx selfId then .error PErr.closed
  else
    match cloneV msg ctr with
    | none => .error PErr.dataClone
    | some (cloned, c1) =>
        let sch := scheduleFor cloned
          ((chanSubs ctx (nameOf ctx selfId)).filter
            (fun j => j != selfId && !(isClosed ctx j))) c1
        .ok ({ ctx with micro := ctx.micro ++ sch.1 }, sch.2,
             if ipcOkV cloned then some (nameOf ctx selfId, cloned) else none,
             sch.1)

/-- The renderer receive handler for a forwarded `{channel, message}`
(lines 300-308), preceded by the per-context IPC deserialization that gives
this renderer its own copy of the payload: deliver an independent deep copy
to every open local instance on the channel. -/
def deliverIpc (ctx : Ctx) (ctr : Nat) (ch : String) (payload : JVal) :
    Ctx × Nat × List (Nat × JVal) :=
  match cloneV payload ctr with
  | none => (ctx, ctr, [])
  | some (m, c1) =>
      match ctx.registry.lookup ch with
      | none => (ctx, c1, [])
      | some ids =>
          let sch := scheduleFor m (ids.filter (fun j => !(isClosed ctx j))) c1
          ({ ctx with micro := ctx.micro ++ sch.1 }, sch.2, sch.1)

/-- Run the oldest queued `_dispatch` microtask (lines 290-297): a dispatch
whose instance was closed in the meantime delivers nothing
(`if (instance._closed) return`). -/
def runMicro (ctx : Ctx) : Ctx :=
  match ctx.micro with
  | [] => ctx
  | (i, d) :: rest =>
      if isClosed ctx i then { ctx with micro := rest }
      else { ctx with micro := rest, received := ctx.received ++ [(i, d)] }

/-- Context-level events: channel construction, a publish, a close, one
microtask turn, and an incoming relayed message. -/
inductive CEv where
  | constructEv (nm : String)
  | post (selfId : Nat) (msg : JVal)
  | closeEv (i : Nat)
  | micro
  | ipc (ch : String) (msg : JVal)

/-- One step of the renderer context; a throwing `postMessage` leaves the
state unchanged (the exception fires before any mutation). -/
def cstep (s : Ctx × Nat) : CEv → Ctx × Nat
  | CEv.constructEv nm => construct s.1 s.2 nm
  | CEv.post i m =>
      match postMessage s.1 s.2 i m with
      | .error _ => s
      | .ok (cx, c, _, _) => (cx, c)
  | CEv.closeEv i => (closeCh s.1 i, s.2)
  | CEv.micro => (runMicro s.1, s.2)
  | CEv.ipc ch m =>
      let d := deliverIpc s.1 s.2 ch m
      (d.1, d.2.1)

def crun (s : Ctx × Nat) (evs : List CEv) : Ctx × Nat := evs.foldl cstep s

/-- The messages actually delivered to instance `i`, in order. -/
def receivedFor (ctx : Ctx) (i : Nat) : List JVal :=
  (ctx.received.filter (fun p => p.1 == i)).map Prod.snd

/-! ### Relay lemmas -/

theorem lookup_append {β : Type} (l1 l2 : List (Nat × β)) (k : Nat) :
    (l1 ++ l2).lookup k = (l1.lookup k).or (l2.lookup k) := by
  induction l1 with
  | nil => rfl
  | cons p l1 ih =>
      obtain ⟨a, b⟩ := p
      rw [List.cons_append, List.lookup, List.lookup]
      rcases hk : k == a with _ | _
      · exact ih
      · rfl

theorem isClosedL_append_fresh (l : List (Nat × Chan)) (k i : Nat) (ch : Chan)
    (hne : i ≠ k) (h : isClosedL l i = true) :
    isClosedL (l ++ [(k, ch)]) i = true := by
  unfold isClosedL at h ⊢
  rw [lookup_append]
  have hk : (i == k) = false := by simpa using hne
  have h2 : ([(k, ch)].lookup i) = none := by
    rw [List.lookup, hk]
    rfl
  rw [h2]
  rcases hl : l.lookup i with _ | ch2 <;> rw [hl] at h <;> simpa using h

theorem isClosedL_map_close (l : List (Nat × Chan)) (i j : Nat)
    (h : isClosedL l i = true) :
    isClosedL (l.map
      (fun p => if p.1 = j then (p.1, { p.2 with closed := true }) else p))
      i = true := by
  induction l with
  | nil => exact h
  | cons p l ih =>
      obtain ⟨a, b⟩ := p
      unfold isClosedL at h ⊢
      rw [List.map_cons]
      dsimp only
      rcases hk : i == a with _ | _
      · simp only [List.lookup, hk] at h
        by_cases hj : a = j
        · rw [if_pos hj]
          simp only [List.lookup, hk]
          exact ih h
        · rw [if_neg hj]
          simp only [List.lookup, hk]
          exact ih h
      · by_cases hj : a = j
        · rw [if_pos hj]
          simp [List.lookup, hk]
        · rw [if_neg hj]
          simp only [List.lookup, hk]
          simp only [List.lookup, hk] at h
          exact h

theorem scheduleFor_mono (m : JVal) : ∀ (ids : List Nat) (c : Nat),
    c ≤ (scheduleFor m ids c).2 := by
  intro ids
  induction ids with
  | nil => intro c; exact le_rfl
  | cons j js ih =>
      intro c
      unfold scheduleFor
      rcases hv : cloneV m c with _ | ⟨v, c2⟩
      · exact ih c
      · dsimp only
        have h1 := (cloneV_spec m c v c2 hv).2.1
        have h2 := ih c2
        omega

theorem scheduleFor_spec (m : JVal) (hm : hasFnV m = false) :
    ∀ (ids : List Nat) (c : Nat),
      (scheduleFor m ids c).1.map Prod.fst = ids
      ∧ (∀ p ∈ (scheduleFor m ids c).1,
          eraseV p.2 = eraseV m
          ∧ ∀ i ∈ idsV p.2, c ≤ i ∧ i < (scheduleFor m ids c).2)
      ∧ List.Pairwise (fun p q => ∀ i ∈ idsV p.2, ∀ k ∈ idsV q.2, i ≠ k)
          (scheduleFor m ids c).1 := by
  intro ids
  induction ids with
  | nil =>
      intro c
      exact ⟨rfl, by simp [scheduleFor], by simp [scheduleFor]⟩
  | cons j js ih =>
      intro c
      obtain ⟨⟨v, c2⟩, hv⟩ := cloneV_total m c hm
      unfold scheduleFor
      rw [hv]
      dsimp only
      obtain ⟨g1, g2, g3⟩ := cloneV_spec m c v c2 hv
      obtain ⟨i1, i2, i3⟩ := ih c2
      have hmono := scheduleFor_mono m js c2
      refine ⟨by simp [i1], ?_, ?_⟩
      · intro p hp
        rcases List.mem_cons.mp hp with hp | hp
        · subst hp
          refine ⟨g1, ?_⟩
          intro i hi
          have := g3 i hi
          omega
        · obtain ⟨e1, e2⟩ := i2 p hp
          refine ⟨e1, ?_⟩
          intro i hi
          have := e2 i hi
          omega
      · refine List.Pairwise.cons ?_ i3
        intro q hq i hi k hk
        have hiv := g3 i hi
        have hkv := (i2 q hq).2 k hk
        omega

/-- Inversion of a successful `postMessage`: only `micro` and the counter
change, and the counter is monotone. -/
theorem postMessage_ok_inv (ctx : Ctx) (ctr selfId : Nat) (msg : JVal)
    (cx2 : Ctx) (c2 : Nat) (fw : Option (String × JVal))
    (sch : List (Nat × JVal))
    (h : postMessage ctx ctr selfId msg = .ok (cx2, c2, fw, sch)) :
    cx2.store = ctx.store ∧ cx2.registry = ctx.registry
    ∧ cx2.received = ctx.received ∧ ctr ≤ c2 := by
  unfold postMessage at h
  split at h
  · exact absurd h (by simp)
  · rcases hv : cloneV msg ctr with _ | ⟨cloned, c1⟩
    · rw [hv] at h
      exact absurd h (by simp)
    · rw [hv] at h
      dsimp only at h
      simp only [Except.ok.injEq, Prod.mk.injEq] at h
      obtain ⟨h1, h2, _, _⟩ := h
      subst h1
      subst h2
      have ha := (cloneV_spec msg ctr cloned c1 hv).2.1
      have hb := scheduleFor_mono cloned
        ((chanSubs ctx (nameOf ctx selfId)).filter
          (fun j => j != selfId && !(isClosed ctx j))) c1
      exact ⟨rfl, rfl, rfl, by omega⟩

/-- Inversion of `deliverIpc`: only `micro` and the counter change. -/
theorem deliverIpc_inv (ctx : Ctx) (ctr : Nat) (ch : String) (payload : JVal) :
    (deliverIpc ctx ctr ch payload).1.store = ctx.store
    ∧ (deliverIpc ctx ctr ch payload).1.registry = ctx.registry
    ∧ (deliverIpc ctx ctr ch payload).1.received = ctx.received
    ∧ ctr ≤ (deliverIpc ctx ctr ch payload).2.1 := by
  unfold deliverIpc
  rcases hv : cloneV payload ctr with _ | ⟨m, c1⟩
  · exact ⟨rfl, rfl, rfl, le_rfl⟩
  · dsimp only
    have ha := (cloneV_spec payload ctr m c1 hv).2.1
    rcases hl : ctx.registry.lookup ch with _ | ids
    · dsimp only
      exact ⟨rfl, rfl, rfl, by omega⟩
    · dsimp only
      have hb := scheduleFor_mono m (ids.filter (fun j => !(isClosed ctx j))) c1
      exact ⟨rfl, rfl, rfl, by omega⟩

/-! ### C7 : closed subscribers -/

/-- Store well-formedness: every constructed id is below the allocation
counter (fresh ids are never reused). -/
def CtxWF (ctx : Ctx) (ctr : Nat) : Prop := ∀ p ∈ ctx.store, p.1 < ctr

theorem closed_step (s : Ctx × Nat) (e : CEv) (i : Nat)
    (hwf : CtxWF s.1 s.2) (hi : i < s.2) (hc : isClosed s.1 i = true) :
    CtxWF (cstep s e).1 (cstep s e).2 ∧ s.2 ≤ (cstep s e).2
    ∧ isClosed (cstep s e).1 i = true
    ∧ receivedFor (cstep s e).1 i = receivedFor s.1 i := by
  obtain ⟨ctx, ctr⟩ := s
  dsimp only at hwf hi hc ⊢
  cases e with
  | constructEv nm =>
      refine ⟨?_, Nat.le_succ ctr, ?_, rfl⟩
      · intro p hp
        rcases List.mem_append.mp hp with h | h
        · exact Nat.lt_trans (hwf p h) (Nat.lt_succ_self ctr)
        · rw [List.mem_singleton] at h
          subst h
          exact Nat.lt_succ_self ctr
      · exact isClosedL_append_fresh ctx.store ctr i ⟨nm, false⟩ (by omega) hc
  | post i2 m =>
      unfold cstep
      dsimp only
      rcases hpm : postMessage ctx ctr i2 m with e2 | ⟨cx, c, fw, sch⟩
      · exact ⟨hwf, le_rfl, hc, rfl⟩
      · obtain ⟨q1, q2, q3, q4⟩ := postMessage_ok_inv ctx ctr i2 m cx c fw sch hpm
        dsimp only
        refine ⟨?_, q4, ?_, ?_⟩
        · intro p hp
          rw [q1] at hp
          exact Nat.lt_of_lt_of_le (hwf p hp) q4
        · unfold isClosed
          rw [q1]
          exact hc
        · unfold receivedFor
          rw [q3]
  | closeEv i2 =>
      unfold cstep closeCh
      dsimp only
      split
      · exact ⟨hwf, le_rfl, hc, rfl⟩
      · refine ⟨?_, le_rfl, ?_, rfl⟩
        · intro p hp
          dsimp only at hp
          obtain ⟨p0, hp0, hfp⟩ := List.mem_map.mp hp
          subst hfp
          have hlt := hwf p0 hp0
          by_cases h : p0.1 = i2 <;> simp [h] <;> omega
        · exact isClosedL_map_close ctx.store i i2 hc
  | micro =>
      unfold cstep runMicro
      dsimp only
      rcases hm : ctx.micro with _ | ⟨⟨j, d⟩, rest⟩
      · exact ⟨hwf, le_rfl, hc, rfl⟩
      · dsimp only
        rcases hcj : isClosed ctx j with _ | _
        · rw [if_neg (by simp [hcj])]
          have hji : (j == i) = false := by
            rcases h : j == i with _ | _
            · rfl
            · simp only [beq_iff_eq] at h
              subst h
              simp [hcj] at hc
          refine ⟨hwf, le_rfl, hc, ?_⟩
          unfold receivedFor
          dsimp only
          rw [List.filter_append]
          simp [hji]
        · rw [if_pos (by simp [hcj])]
          exact ⟨hwf, le_rfl, hc, rfl⟩
  | ipc ch m =>
      unfold cstep
      dsimp only
      obtain ⟨q1, q2, q3, q4⟩ := deliverIpc_inv ctx ctr ch m
      refine ⟨?_, q4, ?_, ?_⟩
      · intro p hp
        rw [q1] at hp
        exact Nat.lt_of_lt_of_le (hwf p hp) q4
      · unfold isClosed
        rw [q1]
        exact hc
      · unfold receivedFor
        rw [q3]

theorem closed_run (evs : List CEv) :
    ∀ (s : Ctx × Nat) (i : Nat), CtxWF s.1 s.2 → i < s.2 →
      isClosed s.1 i = true →
      receivedFor (crun s evs).1 i = receivedFor s.1 i := by
  induction evs with
  | nil => intro s i _ _ _; rfl
  | cons e es ih =>
      intro s i hwf hi hc
      obtain ⟨k1, k2, k3, k4⟩ := closed_step s e i hwf hi hc
      have h2 := ih (cstep s e) i k1 (by omega) k3
      have h3 : crun s (e :: es) = crun (cstep s e) es := by
        simp [crun]
      rw [h3, h2, k4]

/-- C7: publishing through a closed subscriber fails fast and synchronously
with the closed-resource error, and no message is ever delivered to a closed
subscriber afterwards — whatever mix of constructions, publishes, closes,
relayed messages and microtask turns runs, including dispatch microtasks that
were already queued for it when it was closed. -/
theorem C7_closed_subscriber (ctx : Ctx) (ctr i : Nat) (msg : JVal)
    (hwf : CtxWF ctx ctr) (hi : i < ctr) (hc : isClosed ctx i = true)
    (evs : List CEv) :
    postMessage ctx ctr i msg = Except.error PErr.closed
    ∧ receivedFor (crun (ctx, ctr) evs).1 i = receivedFor ctx i := by
  constructor
  · unfold postMessage
    rw [if_pos hc]
  · exact closed_run evs (ctx, ctr) i hwf hi hc

/-- A context with subscriber 0 closed on "x", subscriber 1 open, and a
dispatch for the closed subscriber still queued from before the close. -/
def ctx7 : Ctx :=
  { store := [(0, ⟨"x", true⟩), (1, ⟨"x", false⟩)],
    registry := [("x", [1])],
    micro := [(0, JVal.leaf (JKind.num 5)), (1, JVal.leaf (JKind.num 5))],
    received := [] }

/-- Witness for C7: the closed subscriber 0 cannot publish, and draining both
queued microtasks delivers nothing to it. -/
theorem C7_witness :
    postMessage ctx7 2 0 (JVal.leaf (JKind.num 7)) = Except.error PErr.closed
    ∧ receivedFor (crun (ctx7, 2) [CEv.micro, CEv.micro]).1 0
        = receivedFor ctx7 0 :=
  C7_closed_subscriber ctx7 2 0 (JVal.leaf (JKind.num 7))
    (by intro p hp; fin_cases hp <;> simp) (by omega) (by decide)
    [CEv.micro, CEv.micro]

/-! ### C1 : non-serializable payloads -/

/-- Two open subscribers (ids 0 and 1) on channel "x", built through the
constructor. -/
def c1ctxP : Ctx × Nat :=
  construct { store := [], registry := [], micro := [], received := [] } 0 "x"

def c1ctx : Ctx × Nat := construct c1ctxP.1 c1ctxP.2 "x"

/-- C1 counterexample: with two open subscribers on "x", publishing a message
that cannot be deep-copied (a function value) makes the publish call itself
fail — `structuredClone(message)` at line 242 throws before any dispatch and
outside the `try/catch`, so local delivery does not proceed, contrary to the
claim that such a publish never fails. -/
theorem C1_counterexample :
    postMessage c1ctx.1 c1ctx.2 0 (JVal.leaf JKind.fnv)
      = Except.error PErr.dataClone := rfl

/-- C1 (amended): when the payload admits an in-context deep copy but fails
Transport (IPC) serialization, the cross-context forward is silently skipped
while local delivery still proceeds to every other open local subscriber on
the channel, with the full message content; but a payload that cannot be
deep-copied at all makes the publish call throw, and nothing is delivered. -/
theorem C1_forward_skip (ctx : Ctx) (ctr selfId : Nat) (msg : JVal)
    (hopen : isClosed ctx selfId = false) :
    (hasFnV msg = true →
      postMessage ctx ctr selfId msg = Except.error PErr.dataClone)
    ∧ (hasFnV msg = false → ∃ cx2 c2 fw sch,
        postMessage ctx ctr selfId msg = Except.ok (cx2, c2, fw, sch)
        ∧ cx2.micro = ctx.micro ++ sch
        ∧ sch.map Prod.fst
            = (chanSubs ctx (nameOf ctx selfId)).filter
                (fun j => j != selfId && !(isClosed ctx j))
        ∧ (∀ p ∈ sch, eraseV p.2 = eraseV msg)
        ∧ (hasHostileV msg = true → fw = none)
        ∧ (hasHostileV msg = false →
            ∃ v, fw = some (nameOf ctx selfId, v) ∧ eraseV v = eraseV msg)) := by
  constructor
  · intro hfn
    unfold postMessage
    rw [if_neg (by simp [hopen]), cloneV_fails msg ctr hfn]
  · intro hfn
    obtain ⟨⟨cloned, c1⟩, hv⟩ := cloneV_total msg ctr hfn
    obtain ⟨g1, g2, g3⟩ := cloneV_spec msg ctr cloned c1 hv
    have hfc : hasFnV cloned = false := by
      rw [hasFnV_erase, g1, ← hasFnV_erase]
      exact hfn
    obtain ⟨s1, s2, s3⟩ := scheduleFor_spec cloned hfc
      ((chanSubs ctx (nameOf ctx selfId)).filter
        (fun j => j != selfId && !(isClosed ctx j))) c1
    have heq : postMessage ctx ctr selfId msg
        = Except.ok
            ({ ctx with micro := ctx.micro ++ (scheduleFor cloned
                ((chanSubs ctx (nameOf ctx selfId)).filter
                  (fun j => j != selfId && !(isClosed ctx j))) c1).1 },
             (scheduleFor cloned
                ((chanSubs ctx (nameOf ctx selfId)).filter
                  (fun j => j != selfId && !(isClosed ctx j))) c1).2,
             (if ipcOkV cloned then some (nameOf ctx selfId, cloned) else none),
             (scheduleFor cloned
                ((chanSubs ctx (nameOf ctx selfId)).filter
                  (fun j => j != selfId && !(isClosed ctx j))) c1).1) := by
      unfold postMessage
      rw [if_neg (by simp [hopen]), hv]
    refine ⟨_, _, _, _, heq, rfl, s1, ?_, ?_, ?_⟩
    · intro p hp
      rw [(s2 p hp).1, g1]
    · intro hh
      have hhc : hasHostileV cloned = true := by
        rw [hasHostileV_erase, g1, ← hasHostileV_erase]
        exact hh
      simp [ipcOkV, hhc]
    · intro hh
      have hhc : hasHostileV cloned = false := by
        rw [hasHostileV_erase, g1, ← hasHostileV_erase]
        exact hh
      exact ⟨cloned, by simp [ipcOkV, hhc, hfc], g1⟩

/-- A deep-copyable but IPC-hostile payload. -/
def c1hostileMsg : JVal :=
  JVal.arr 100 (JList.cons (JVal.leaf JKind.hostile) JList.nil)

/-- Witness for C1 (amended): in the two-subscriber context, a function
payload throws, and an IPC-hostile composite payload is delivered locally
while the forward is skipped. -/
theorem C1_witness :
    (postMessage c1ctx.1 c1ctx.2 1 (JVal.leaf JKind.fnv)
       = Except.error PErr.dataClone)
    ∧ (∃ cx2 c2 fw sch,
        postMessage c1ctx.1 c1ctx.2 0 c1hostileMsg
          = Except.ok (cx2, c2, fw, sch)
        ∧ cx2.micro = c1ctx.1.micro ++ sch
        ∧ sch.map Prod.fst
            = (chanSubs c1ctx.1 (nameOf c1ctx.1 0)).filter
                (fun j => j != 0 && !(isClosed c1ctx.1 j))
        ∧ (∀ p ∈ sch, eraseV p.2 = eraseV c1hostileMsg)
        ∧ (hasHostileV c1hostileMsg = true → fw = none)
        ∧ (hasHostileV c1hostileMsg = false →
            ∃ v, fw = some (nameOf c1ctx.1 0, v)
              ∧ eraseV v = eraseV c1hostileMsg)) :=
  ⟨(C1_forward_skip c1ctx.1 c1ctx.2 1 (JVal.leaf JKind.fnv) (by decide)).1 rfl,
   (C1_forward_skip c1ctx.1 c1ctx.2 0 c1hostileMsg (by decide)).2 rfl⟩

/-! ### C8 : independent deep copies, locally and across contexts -/

/-- The whole Electron process: one relay context per renderer window plus
the allocation counter (allocation tags are globally unique in the model so
that cross-context independence is expressible; contexts cannot share
references anyway). -/
structure World where
  ctxs : List Ctx
  ctr : Nat

/-- main.cjs lines 282-289: on `broadcast-channel-message` the main process
forwards the payload to every window except the sender, and each receiving
window runs its receive handler.  `idx` is the position in the context
list. -/
def relayFrom (si : Nat) (ch : String) (payload : JVal) :
    List Ctx → Nat → Nat → List Ctx × Nat × List (Nat × JVal)
  | [], _, c => ([], c, [])
  | cx :: rest, idx, c =>
      if idx = si then
        let r := relayFrom si ch payload rest (idx + 1) c
        (cx :: r.1, r.2.1, r.2.2)
      else
        let d := deliverIpc cx c ch payload
        let r := relayFrom si ch payload rest (idx + 1) d.2.1
        (d.1 :: r.1, r.2.1, d.2.2 ++ r.2.2)

/-- A publish observed process-wide: `postMessage` in context `ci`, then the
main-process relay to every other context.  Also returns (ghost) every
delivery scheduled anywhere: the local dispatch copies and the relayed
copies. -/
def worldPost (w : World) (ci selfId : Nat) (msg : JVal) :
    Except PErr (World × List (Nat × JVal)) :=
  match w.ctxs.get? ci with
  | none => Except.error PErr.closed
  | some cx =>
      match postMessage cx w.ctr selfId msg with
      | Except.error e => Except.error e
      | Except.ok (cx2, c2, fw, sch) =>
          match fw with
          | none => Except.ok (⟨w.ctxs.set ci cx2, c2⟩, sch)
          | some (nm, payload) =>
              let r := relayFrom ci nm payload (w.ctxs.set ci cx2) 0 c2
              Except.ok (⟨r.1, r.2.1⟩, sch ++ r.2.2)

theorem deliverIpc_spec (ctx : Ctx) (c : Nat) (ch : String) (payload : JVal)
    (hfn : hasFnV payload = false) :
    c ≤ (deliverIpc ctx c ch payload).2.1
    ∧ (∀ p ∈ (deliverIpc ctx c ch payload).2.2,
        eraseV p.2 = eraseV payload
        ∧ ∀ i ∈ idsV p.2, c ≤ i ∧ i < (deliverIpc ctx c ch payload).2.1)
    ∧ List.Pairwise (fun p q => ∀ i ∈ idsV p.2, ∀ k ∈ idsV q.2, i ≠ k)
        (deliverIpc ctx c ch payload).2.2 := by
  unfold deliverIpc
  obtain ⟨⟨m, c1⟩, hv⟩ := cloneV_total payload c hfn
  rw [hv]
  dsimp only
  obtain ⟨g1, g2, g3⟩ := cloneV_spec payload c m c1 hv
  have hfm : hasFnV m = false := by
    rw [hasFnV_erase, g1, ← hasFnV_erase]
    exact hfn
  rcases hl : ctx.registry.lookup ch with _ | ids
  · dsimp only
    exact ⟨by omega, by simp, by simp⟩
  · dsimp only
    obtain ⟨s1, s2, s3⟩ := scheduleFor_spec m hfm
      (ids.filter (fun j => !(isClosed ctx j))) c1
    have hmono := scheduleFor_mono m (ids.filter (fun j => !(isClosed ctx j))) c1
    refine ⟨by omega, ?_, s3⟩
    intro p hp
    obtain ⟨e1, e2⟩ := s2 p hp
    refine ⟨e1.trans g1, ?_⟩
    intro i hi
    have := e2 i hi
    omega

theorem relayFrom_spec (si : Nat) (ch : String) (payload : JVal)
    (hfn : hasFnV payload = false) :
    ∀ (cl : List Ctx) (idx c : Nat),
      c ≤ (relayFrom si ch payload cl idx c).2.1
      ∧ (∀ p ∈ (relayFrom si ch payload cl idx c).2.2,
          eraseV p.2 = eraseV payload
          ∧ ∀ i ∈ idsV p.2, c ≤ i ∧ i < (relayFrom si ch payload cl idx c).2.1)
      ∧ List.Pairwise (fun p q => ∀ i ∈ idsV p.2, ∀ k ∈ idsV q.2, i ≠ k)
          (relayFrom si ch payload cl idx c).2.2 := by
  intro cl
  induction cl with
  | nil =>
      intro idx c
      exact ⟨le_rfl, by simp [relayFrom], by simp [relayFrom]⟩
  | cons cx rest ih =>
      intro idx c
      unfold relayFrom
      by_cases hidx : idx = si
      · rw [if_pos hidx]
        dsimp only
        exact ih (idx + 1) c
      · rw [if_neg hidx]
        dsimp only
        obtain ⟨d1, d2, d3⟩ := deliverIpc_spec cx c ch payload hfn
        obtain ⟨r1, r2, r3⟩ := ih (idx + 1) (deliverIpc cx c ch payload).2.1
        refine ⟨by omega, ?_, ?_⟩
        · intro p hp
          rcases List.mem_append.mp hp with hp | hp
          · obtain ⟨e1, e2⟩ := d2 p hp
            refine ⟨e1, ?_⟩
            intro i hi
            have := e2 i hi
            omega
          · obtain ⟨e1, e2⟩ := r2 p hp
            refine ⟨e1, ?_⟩
            intro i hi
            have := e2 i hi
            omega
        · rw [List.pairwise_append]
          refine ⟨d3, r3, ?_⟩
          intro a ha b hb i hi k hk
          have h1 := (d2 a ha).2 i hi
          have h2 := (r2 b hb).2 k hk
          omega

/-- C8: for a JSON-representable (deep-copyable and IPC-serializable) value
published in any context, every delivery scheduled anywhere — to the other
local subscribers and, through the relay, to subscribers of every other
context — carries a value deep-equal to the original (equal identity-erased
shape) that shares no mutable node with the original, and no two deliveries
share a mutable node with each other: no shared mutable state between sender
and receivers, nor between receivers. -/
theorem C8_roundtrip_independence (w : World) (ci selfId : Nat) (msg : JVal)
    (cx : Ctx) (hcx : w.ctxs.get? ci = some cx)
    (hopen : isClosed cx selfId = false)
    (hfn : hasFnV msg = false) (hho : hasHostileV msg = false)
    (hid : ∀ i ∈ idsV msg, i < w.ctr) :
    ∃ w2 deliv, worldPost w ci selfId msg = Except.ok (w2, deliv)
    ∧ (∀ p ∈ deliv, eraseV p.2 = eraseV msg)
    ∧ (∀ p ∈ deliv, ∀ i ∈ idsV p.2, i ∉ idsV msg)
    ∧ List.Pairwise (fun p q => ∀ i ∈ idsV p.2, ∀ k ∈ idsV q.2, i ≠ k)
        deliv := by
  obtain ⟨⟨cloned, c1⟩, hv⟩ := cloneV_total msg w.ctr hfn
  obtain ⟨g1, g2, g3⟩ := cloneV_spec msg w.ctr cloned c1 hv
  have hfc : hasFnV cloned = false := by
    rw [hasFnV_erase, g1, ← hasFnV_erase]
    exact hfn
  have hhc : hasHostileV cloned = false := by
    rw [hasHostileV_erase, g1, ← hasHostileV_erase]
    exact hho
  have hipc : ipcOkV cloned = true := by
    simp [ipcOkV, hfc, hhc]
  obtain ⟨s1, s2, s3⟩ := scheduleFor_spec cloned hfc
    ((chanSubs cx (nameOf cx selfId)).filter
      (fun j => j != selfId && !(isClosed cx j))) c1
  have hmono := scheduleFor_mono cloned
    ((chanSubs cx (nameOf cx selfId)).filter
      (fun j => j != selfId && !(isClosed cx j))) c1
  have heq : postMessage cx w.ctr selfId msg
      = Except.ok
          ({ cx with micro := cx.micro ++ (scheduleFor cloned
              ((chanSubs cx (nameOf cx selfId)).filter
                (fun j => j != selfId && !(isClosed cx j))) c1).1 },
           (scheduleFor cloned
              ((chanSubs cx (nameOf cx selfId)).filter
                (fun j => j != selfId && !(isClosed cx j))) c1).2,
           some (nameOf cx selfId, cloned),
           (scheduleFor cloned
              ((chanSubs cx (nameOf cx selfId)).filter
                (fun j => j != selfId && !(isClosed cx j))) c1).1) := by
    unfold postMessage
    rw [if_neg (by simp [hopen]), hv]
    dsimp only
    rw [hipc]
    rfl
  obtain ⟨r1, r2, r3⟩ := relayFrom_spec ci (nameOf cx selfId) cloned hfc
    (w.ctxs.set ci { cx with micro := cx.micro ++ (scheduleFor cloned
        ((chanSubs cx (nameOf cx selfId)).filter
          (fun j => j != selfId && !(isClosed cx j))) c1).1 }) 0
    (scheduleFor cloned
      ((chanSubs cx (nameOf cx selfId)).filter
        (fun j => j != selfId && !(isClosed cx j))) c1).2
  unfold worldPost
  rw [hcx]
  dsimp only
  rw [heq]
  dsimp only
  refine ⟨_, _, rfl, ?_, ?_, ?_⟩
  · intro p hp
    rcases List.mem_append.mp hp with hp | hp
    · exact ((s2 p hp).1).trans g1
    · exact ((r2 p hp).1).trans g1
  · intro p hp i hi hmem
    have hlt := hid i hmem
    rcases List.mem_append.mp hp with hp | hp
    · have := (s2 p hp).2 i hi
      omega
    · have := (r2 p hp).2 i hi
      omega
  · rw [List.pairwise_append]
    refine ⟨s3, r3, ?_⟩
    intro a ha b hb i hi k hk
    have h1 := (s2 a ha).2 i hi
    have h2 := (r2 b hb).2 k hk
    omega

/-- Two contexts: subscribers 0 and 1 on "x" in the publishing window,
subscriber 5 on "x" in the other window. -/
def c8ctxA : Ctx :=
  { store := [(0, ⟨"x", false⟩), (1, ⟨"x", false⟩)],
    registry := [("x", [0, 1])], micro := [], received := [] }

def c8ctxB : Ctx :=
  { store := [(5, ⟨"x", false⟩)], registry := [("x", [5])],
    micro := [], received := [] }

def c8world : World := ⟨[c8ctxA, c8ctxB], 10⟩

/-- A composite JSON value with one mutable node (id 3). -/
def c8msg : JVal := JVal.arr 3 (JList.cons (JVal.leaf (JKind.num 1)) JList.nil)

/-- Witness for C8: subscriber 0 publishes `[1]` on "x"; the copies scheduled
for subscriber 1 (local) and subscriber 5 (relayed) are deep-equal to the
original and share no mutable node with it or with each other. -/
theorem C8_witness :
    ∃ w2 deliv, worldPost c8world 0 0 c8msg = Except.ok (w2, deliv)
    ∧ (∀ p ∈ deliv, eraseV p.2 = eraseV c8msg)
    ∧ (∀ p ∈ deliv, ∀ i ∈ idsV p.2, i ∉ idsV c8msg)
    ∧ List.Pairwise (fun p q => ∀ i ∈ idsV p.2, ∀ k ∈ idsV q.2, i ≠ k)
        deliv :=
  C8_roundtrip_independence c8world 0 0 c8msg c8ctxA rfl (by decide) rfl rfl
    (by decide)

end Grandicast
